import Mathlib

/-
Verification of the cluster-map (Smap) ownership subsystem of ais/clustermap.go.

The embedding is a shallow, executable translation of the Go source:

* Go maps (`cluster.NodeMap`) become association lists `List (String × Snode)`;
  the list order stands in for Go's (arbitrary) map iteration order.
* The `cos.BitFlags` bitmask on nodes is represented as a named flag set,
  following the spec's design note ("represent as a small tagged set of named
  capability/status flags rather than a raw bitmask, preserving the
  set/clear/is-set/is-any-set operations"); `cos` is not under src/.
* Helpers from the `cluster` and `cos` packages that clustermap.go calls but
  whose sources are not in the excerpt (DefaultICSize, ICCount, IsIC,
  GetNode/GetProxy/GetTarget, IsDuplicate, IsValidUUID) are modelled from the
  spec; each carries a doc comment saying so.
* Go pointer aliasing is elided: nodes are values.  Wherever the source relies
  on aliasing (the primary pointer sharing the node object stored in Pmap) the
  source itself re-resolves the reference against the map
  (`m.Primary = m.GetNode(...)`, `dst.Primary = dst.GetProxy(...)`), which the
  embedding reproduces; theorems that need field/map coherence hypothesise it.
  A separate reference/heap model (`smapR`) embeds `clone()` with explicit
  allocation so that structural independence of the deep copy is a real
  statement rather than a triviality of value semantics.
* Fatal assertions (`cos.Assert*`, duplicate SID, deleting an absent node,
  dereferencing a nil primary) abort the Go process; they are modelled as
  no-ops and every theorem below either hypothesises or establishes that the
  asserted condition holds, so the aborting branch is never taken.
* The serialization cache `_sgl`, `InitDigests`, logging, and the memsys
  buffer plumbing are performance/diagnostic machinery with no semantic
  content (spec section 3 calls them "derived, non-persisted") and are not
  modelled.  Persistence I/O outcomes are injected as parameters.
-/

/-- Modelled from the spec (design note on `cos.BitFlags`, not under src/):
node membership flags as a named flag set with the set / clear / is-set /
is-any-set operations of the Go bitmask. -/
structure BitFlags where
  nonElectable : Bool
  ic : Bool
  maint : Bool
  decomm : Bool
deriving DecidableEq, Repr

/-- `f.Set g` : bitwise or, as in Go `f | g`. -/
def BitFlags.Set (f g : BitFlags) : BitFlags :=
  ⟨f.nonElectable || g.nonElectable, f.ic || g.ic, f.maint || g.maint, f.decomm || g.decomm⟩

/-- `f.Clear g` : bitwise and-not, as in Go `f &^ g`. -/
def BitFlags.Clear (f g : BitFlags) : BitFlags :=
  ⟨f.nonElectable && !g.nonElectable, f.ic && !g.ic, f.maint && !g.maint, f.decomm && !g.decomm⟩

/-- `f.IsSet g` : all bits of `g` present in `f`, as in Go `f & g == g`. -/
def BitFlags.IsSet (f g : BitFlags) : Bool :=
  (!g.nonElectable || f.nonElectable) && (!g.ic || f.ic) &&
    (!g.maint || f.maint) && (!g.decomm || f.decomm)

/-- `f.IsAnySet g` : some bit of `g` present in `f`, as in Go `f & g != 0`. -/
def BitFlags.IsAnySet (f g : BitFlags) : Bool :=
  (f.nonElectable && g.nonElectable) || (f.ic && g.ic) ||
    (f.maint && g.maint) || (f.decomm && g.decomm)

/-- The all-clear flag set (Go zero value). -/
def BitFlags.zero : BitFlags := ⟨false, false, false, false⟩

/-- `cluster.SnodeNonElectable`. -/
def SnodeNonElectable : BitFlags := ⟨true, false, false, false⟩

/-- `cluster.SnodeIC`. -/
def SnodeIC : BitFlags := ⟨false, true, false, false⟩

/-- `cluster.SnodeMaint`. -/
def SnodeMaint : BitFlags := ⟨false, false, true, false⟩

/-- `cluster.SnodeDecomm`. -/
def SnodeDecomm : BitFlags := ⟨false, false, false, true⟩

/-- `cluster.NodeFlagsMaintDecomm` = maintenance or decommission. -/
def NodeFlagsMaintDecomm : BitFlags := ⟨false, false, true, true⟩

/-- Node role, Go `DaeType` restricted to the two roles clustermap.go uses. -/
inductive Role where
  | proxy
  | target
deriving DecidableEq, Repr

/-- `cluster.Snode`: identity, role, flag set; the network endpoints are
reduced to the single public URL that duplicate-URL/IP detection compares
(modelled from the spec; `cluster.Snode` is not under src/). -/
structure Snode where
  id : String
  role : Role
  flags : BitFlags
  pubURL : String
deriving DecidableEq, Repr

/-- Go `si.IsProxy()`. -/
def Snode.IsProxy (s : Snode) : Bool :=
  match s.role with
  | Role.proxy => true
  | Role.target => false

/-- Go `si.IsTarget()`. -/
def Snode.IsTarget (s : Snode) : Bool :=
  match s.role with
  | Role.proxy => false
  | Role.target => true

/-- `cluster.NodeMap`: a Go map from node id to node, embedded as an
association list; the list order models the (arbitrary) iteration order. -/
abbrev NodeMap := List (String × Snode)

/-- Go map read `l[id]`. -/
def NodeMap.get : NodeMap → String → Option Snode
  | [], _ => none
  | (k, v) :: rest, id => if k = id then some v else NodeMap.get rest id

/-- Go map write `l[k] = v`: replace the entry if the key is present,
otherwise add it. -/
def NodeMap.set : NodeMap → String → Snode → NodeMap
  | [], k, v => [(k, v)]
  | (k0, v0) :: rest, k, v =>
      if k0 = k then (k, v) :: rest else (k0, v0) :: NodeMap.set rest k v

/-- Go `delete(l, k)`. -/
def NodeMap.del (l : NodeMap) (k : String) : NodeMap :=
  l.filter (fun e => e.1 != k)

/-- The key set of the map. -/
def NodeMap.keys (l : NodeMap) : List String :=
  l.map Prod.fst

/-- Number of entries whose node carries the IC flag (the body of the loop in
`cluster.Smap.ICCount`, modelled from the spec's "|IC members|"). -/
def NodeMap.countIC : NodeMap → Nat
  | [] => 0
  | (_, v) :: rest => (if v.flags.ic then 1 else 0) + NodeMap.countIC rest

/-- First entry with a different id but the same public URL, the conflict
scanned for by `cluster.Smap.IsDuplicate` (modelled from the spec's
"duplicate-URL/IP detection"). -/
def NodeMap.findDup : NodeMap → Snode → Option Snode
  | [], _ => none
  | (_, si) :: rest, nsi =>
      if si.id ≠ nsi.id ∧ si.pubURL = nsi.pubURL then some si else NodeMap.findDup rest nsi

/-- Errors surfaced by the subsystem, one constructor per Go error family:
plain validation errors, the distinct cluster-integrity type
`errSmapUUIDDiffer`, the duplicate-node conflict, `errDowngrade`, and
`cmn.NewErrFailedTo` (operation name, wrapped cause). -/
inductive AisErr where
  | validation : String → AisErr
  | smapUUIDDiffer : String → AisErr
  | duplicateNode : String → AisErr
  | downgrade : String → AisErr
  | failedTo : String → String → AisErr
deriving DecidableEq, Repr

/-- Discriminator for the cluster-integrity error type. -/
def AisErr.isUUIDDiffer : AisErr → Bool
  | AisErr.smapUUIDDiffer _ => true
  | _ => false

/-- Discriminator for the downgrade error type. -/
def AisErr.isDowngrade : AisErr → Bool
  | AisErr.downgrade _ => true
  | _ => false

/-- `smapX`: the versioned membership snapshot.  `Tmap`/`Pmap`/`Primary`/
`Version`/`UUID`/`CreationTime` embed the `cluster.Smap` fields; `vstr` is the
cached string form of the version; the `_sgl` serialization cache is not
modelled.  `Primary` is `Option` because the Go field is a pointer that is nil
until the snapshot is populated. -/
structure smapX where
  Tmap : NodeMap
  Pmap : NodeMap
  Primary : Option Snode
  Version : Int
  UUID : String
  CreationTime : String
  vstr : String
deriving DecidableEq, Repr

/-- `const DfltCountIC` behind `cluster.Smap.DefaultICSize` (modelled from the
spec's "configured maximum"; the constant is 3 in the source tree). -/
def DefaultICSize : Nat := 3

/-- Go `m.GetProxy(id)` (modelled from the spec: Pmap lookup). -/
def smapX.GetProxy (m : smapX) (id : String) : Option Snode :=
  m.Pmap.get id

/-- Go `m.GetTarget(id)` (modelled from the spec: Tmap lookup). -/
def smapX.GetTarget (m : smapX) (id : String) : Option Snode :=
  m.Tmap.get id

/-- Go `m.GetNode(id)` (modelled from the spec: lookup across both maps;
target map first — the order is immaterial when the maps are id-disjoint). -/
def smapX.GetNode (m : smapX) (id : String) : Option Snode :=
  match m.GetTarget id with
  | some si => some si
  | none => m.GetProxy id

/-- Go `m.ICCount()` (modelled from the spec: number of IC members, counted
over the proxy map). -/
def smapX.ICCount (m : smapX) : Nat :=
  m.Pmap.countIC

/-- Go `m.IsIC(psi)` (modelled from the spec: the node carries the IC flag). -/
def smapX.IsIC (_ : smapX) (psi : Snode) : Bool :=
  psi.flags.IsSet SnodeIC

/-- `cos.IsValidUUID` (modelled from the spec: a uuid is syntactically valid
once set; the empty string is the unset/bootstrap state). -/
def IsValidUUID (u : String) : Bool :=
  u.length > 0

/-- The id of the primary, `m.Primary.ID()`.  Go dereferences the pointer and
aborts when it is nil; callers below establish that `Primary` is set. -/
def smapX.primaryID (m : smapX) : String :=
  match m.Primary with
  | some p => p.id
  | none => ""

/-- `m.isPresent(si)`. -/
def smapX.isPresent (m : smapX) (si : Snode) : Bool :=
  if si.IsProxy then (m.GetProxy si.id).isSome else (m.GetTarget si.id).isSome

/-- `m._applyFlags(si, newFlags)`: store the node back with the new flags and
bump the version.  (Go also updates the shared node object in place; nodes are
values here, so the map write carries the whole effect.) -/
def smapX._applyFlags (m : smapX) (si : Snode) (newFlags : BitFlags) : smapX :=
  let si2 : Snode := { si with flags := newFlags }
  if si2.IsTarget then
    { m with Tmap := m.Tmap.set si2.id si2, Version := m.Version + 1 }
  else
    { m with Pmap := m.Pmap.set si2.id si2, Version := m.Version + 1 }

/-- `m.setNodeFlags(sid, flags)`: set bits; setting maintenance/decommission
implicitly clears IC.  Go dereferences `GetNode(sid)` and aborts when the node
is absent; that branch is modelled as a no-op and is never taken below. -/
def smapX.setNodeFlags (m : smapX) (sid : String) (flags : BitFlags) : smapX :=
  match m.GetNode sid with
  | none => m
  | some si =>
      let newFlags := si.flags.Set flags
      let newFlags :=
        if flags.IsAnySet NodeFlagsMaintDecomm then newFlags.Clear SnodeIC else newFlags
      m._applyFlags si newFlags

/-- `m.clearNodeFlags(id, flags)`.  Absent node: as in `setNodeFlags`. -/
def smapX.clearNodeFlags (m : smapX) (id : String) (flags : BitFlags) : smapX :=
  match m.GetNode id with
  | none => m
  | some si => m._applyFlags si (si.flags.Clear flags)

/-- `m.addIC(psi)`. -/
def smapX.addIC (m : smapX) (psi : Snode) : smapX :=
  if m.IsIC psi then m else m.setNodeFlags psi.id SnodeIC

/-- The `for _, si := range m.Pmap` loop of `_fillIC`, iterating over the
entries captured when the loop starts.  (Sound for the Go range loop: keys are
visited once and only the visited entry's flags are updated, so each captured
entry equals the live one at its visit.) -/
def smapX.fillICLoop (m : smapX) : List (String × Snode) → smapX
  | [] => m
  | (_, si) :: rest =>
      if si.flags.IsSet SnodeNonElectable then m.fillICLoop rest
      else
        let m2 := m.addIC si
        if m2.ICCount ≥ DefaultICSize then m2 else m2.fillICLoop rest

/-- `m._fillIC()`. -/
def smapX._fillIC (m : smapX) : smapX :=
  if m.ICCount ≥ DefaultICSize then m else m.fillICLoop m.Pmap

/-- The `for sid, si := range m.Pmap` loop of `evictIC`: clear the IC flag of
the first non-primary IC member and stop. -/
def smapX.evictICLoop (m : smapX) : List (String × Snode) → smapX
  | [] => m
  | (sid, si) :: rest =>
      if sid = m.primaryID ∨ ¬ m.IsIC si then m.evictICLoop rest
      else m.clearNodeFlags sid SnodeIC

/-- `m.evictIC()`: ensure the IC member count does not exceed the maximum by
evicting (at most) one member. -/
def smapX.evictIC (m : smapX) : smapX :=
  if m.ICCount ≤ DefaultICSize then m else m.evictICLoop m.Pmap

/-- `m.staffIC()` (primary only): put the primary into the IC, re-resolve the
primary reference against the map, fill, evict. -/
def smapX.staffIC (m : smapX) : smapX :=
  let m1 := m.addIC (match m.Primary with | some p => p | none => ⟨"", Role.proxy, BitFlags.zero, ""⟩)
  let m2 := { m1 with Primary := m1.GetNode m.primaryID }
  let m3 := m2._fillIC
  m3.evictIC

/-- Go `clusterMap` constant. -/
def clusterMap : String := "Smap"

/-- `m.isValid()` (nil receiver allowed, hence the `Option`). -/
def smapX.isValid (m : Option smapX) : Bool :=
  match m with
  | none => false
  | some m =>
      match m.Primary with
      | none => false
      | some p => m.isPresent p

/-- `m.validate()`: the stronger, error-returning validity check.  The Go
assert that a present primary has a non-empty id aborts the process and is not
modelled. -/
def smapX.validate (m : Option smapX) : Option AisErr :=
  match m with
  | none => some (AisErr.validation (clusterMap ++ " is <nil>"))
  | some m =>
      if m.Version = 0 then some (AisErr.validation (clusterMap ++ " v0"))
      else
        match m.Primary with
        | none => some (AisErr.validation (clusterMap ++ ": primary <nil>"))
        | some p =>
            if ¬ m.isPresent p then
              some (AisErr.validation (clusterMap ++ ": primary not present"))
            else if ¬ IsValidUUID m.UUID then
              some (AisErr.validation (clusterMap ++ ": invalid UUID " ++ m.UUID))
            else none

/-- `m.addTarget(tsi)`.  A duplicate SID is a fatal Go assertion (process
abort); modelled as a no-op, never taken below. -/
def smapX.addTarget (m : smapX) (tsi : Snode) : smapX :=
  if (m.GetNode tsi.id).isSome then m
  else { m with Tmap := m.Tmap.set tsi.id tsi, Version := m.Version + 1 }

/-- `m.addProxy(psi)`.  Duplicate SID: as in `addTarget`. -/
def smapX.addProxy (m : smapX) (psi : Snode) : smapX :=
  if (m.GetNode psi.id).isSome then m
  else { m with Pmap := m.Pmap.set psi.id psi, Version := m.Version + 1 }

/-- `m.delTarget(sid)`.  Absent target is a fatal Go assertion; no-op here. -/
def smapX.delTarget (m : smapX) (sid : String) : smapX :=
  if (m.GetTarget sid).isNone then m
  else { m with Tmap := m.Tmap.del sid, Version := m.Version + 1 }

/-- `m.delProxy(pid)`.  Absent proxy: as in `delTarget`. -/
def smapX.delProxy (m : smapX) (pid : String) : smapX :=
  if (m.GetProxy pid).isNone then m
  else { m with Pmap := m.Pmap.del pid, Version := m.Version + 1 }

/-- `m.putNode(nsi, flags)`: upsert under the node's role; reports whether an
entry with that id already existed under the role. -/
def smapX.putNode (m : smapX) (nsi : Snode) (flags : BitFlags) : smapX × Bool :=
  let id := nsi.id
  let nsi : Snode := { nsi with flags := flags }
  if nsi.IsProxy then
    let st := if (m.GetProxy id).isSome then (m.delProxy id, true) else (m, false)
    (st.1.addProxy nsi, st.2)
  else
    let st := if (m.GetTarget id).isSome then (m.delTarget id, true) else (m, false)
    (st.1.addTarget nsi, st.2)

/-- The per-entry copy `v.Clone()` performed by `clone()`'s map loops (a value
copy in this embedding; the reference-level copy is modelled by `cloneMapR`
below). -/
def cloneMap (l : NodeMap) : NodeMap :=
  l.map (fun e => (e.1, e.2))

/-- `m.clone()`: fresh maps, per-node copies, scalar fields (including the
cached `vstr`) carried over, primary re-resolved against the new proxy map.
Go dereferences a nil primary (process abort); modelled as `none`. -/
def smapX.clone (m : smapX) : smapX :=
  let dst := { m with Tmap := cloneMap m.Tmap, Pmap := cloneMap m.Pmap }
  { dst with
      Primary :=
        match m.Primary with
        | some p => dst.GetProxy p.id
        | none => none }

/-- `m.IsDuplicate(nsi)` (modelled from the spec: scan both maps for a node
with a different id but the same public URL/IP). -/
def smapX.IsDuplicate (m : smapX) (nsi : Snode) : Option Snode :=
  match m.Tmap.findDup nsi with
  | some osi => some osi
  | none => m.Pmap.findDup nsi

/-- `m.handleDuplicateNode(nsi, del)`: no conflict — no change; conflict with
`del == false` — error; conflict with `del == true` — evict the old node. -/
def smapX.handleDuplicateNode (m : smapX) (nsi : Snode) (del : Bool) : smapX × Option AisErr :=
  match m.IsDuplicate nsi with
  | none => (m, none)
  | some osi =>
      if ¬ del then (m, some (AisErr.duplicateNode (nsi.id ++ " duplicates " ++ osi.id)))
      else if osi.IsProxy then (m.delProxy osi.id, none)
      else (m.delTarget osi.id, none)

/-- The first `for id, si := range m.Tmap` loop of `merge`: carry targets into
`dst`, skipping ids already present under either role; stop on conflict. -/
def mergeLoopT : List (String × Snode) → smapX → Bool → Nat → smapX × Nat × Option AisErr
  | [], dst, _, added => (dst, added, none)
  | (id, si) :: rest, dst, override, added =>
      match dst.handleDuplicateNode si override with
      | (dst2, some e) => (dst2, added, some e)
      | (dst2, none) =>
          if (dst2.Tmap.get id).isNone ∧ (dst2.Pmap.get id).isNone then
            mergeLoopT rest { dst2 with Tmap := dst2.Tmap.set id si } override (added + 1)
          else
            mergeLoopT rest dst2 override added

/-- The second `for id, si := range m.Pmap` loop of `merge`. -/
def mergeLoopP : List (String × Snode) → smapX → Bool → Nat → smapX × Nat × Option AisErr
  | [], dst, _, added => (dst, added, none)
  | (id, si) :: rest, dst, override, added =>
      match dst.handleDuplicateNode si override with
      | (dst2, some e) => (dst2, added, some e)
      | (dst2, none) =>
          if (dst2.Pmap.get id).isNone ∧ (dst2.Tmap.get id).isNone then
            mergeLoopP rest { dst2 with Pmap := dst2.Pmap.set id si } override (added + 1)
          else
            mergeLoopP rest dst2 override added

/-- `m.merge(dst, override)`: union `m`'s nodes into `dst`; on success, `dst`
adopts `m`'s uuid and creation time when its own uuid is empty. -/
def smapX.merge (m dst : smapX) (override : Bool) : smapX × Nat × Option AisErr :=
  match mergeLoopT m.Tmap dst override 0 with
  | (dst2, added, some e) => (dst2, added, some e)
  | (dst2, added, none) =>
      match mergeLoopP m.Pmap dst2 override added with
      | (dst3, added2, some e) => (dst3, added2, some e)
      | (dst3, added2, none) =>
          let dst4 :=
            if m.UUID ≠ "" ∧ dst3.UUID = "" then
              { dst3 with UUID := m.UUID, CreationTime := m.CreationTime }
            else dst3
          (dst4, added2, none)

/-- `ciError(num)` label (modelled from the spec: the distinct
cluster-integrity error text lives in ais/err.go, not under src/). -/
def ciError (n : Nat) : String :=
  "cluster integrity error cie#" ++ toString n

/-- Go `m.String()` for an `smapX` ("Smap v<version>"). -/
def smapX.str (m : smapX) : String :=
  clusterMap ++ " v" ++ toString m.Version

/-- `m.validateUUID(si, newSmap, caller, cieNum)`: tolerate nil snapshots, a
zero-version candidate, and unset/invalid uuids; differing valid uuids produce
the distinct `errSmapUUIDDiffer` cluster-integrity error. -/
def smapX.validateUUID (m : Option smapX) (si : Snode) (newSmap : Option smapX)
    (caller : String) (cieNum : Nat) : Option AisErr :=
  match m, newSmap with
  | some m, some newSmap =>
      if newSmap.Version = 0 then none
      else if ¬ IsValidUUID m.UUID ∨ ¬ IsValidUUID newSmap.UUID then none
      else if m.UUID = newSmap.UUID then none
      else
        let caller2 := if caller = "" then "???" else caller
        some (AisErr.smapUUIDDiffer
          (ciError cieNum ++ ": Smaps have different UUIDs: local [" ++ si.id ++ ", " ++
            m.str ++ "] vs from [" ++ caller2 ++ ", " ++ newSmap.str ++ "]"))
  | _, _ => none

/-- The observable state of the `smapOwner` guard: the published snapshot and
the ordered list of change-notification versions handed to the listener
fan-out (`sls.notify`).  The atomic pointer, mutex and file handle have no
further observable content at this level; persistence outcomes are injected
as parameters of `synchronize`, `_runPre` and `modify`.  The owner is
initialized (loaded or bootstrapped) before any modify/synchronize runs, so
the published snapshot is always present. -/
structure OwnerState where
  cur : smapX
  notified : List Int
deriving DecidableEq, Repr

/-- `r.put(smap)`: refresh the cached version string, publish, notify.
(`InitDigests` only fills hash caches and is not modelled.) -/
def OwnerState.put (st : OwnerState) (smap : smapX) : OwnerState :=
  let smap2 := { smap with vstr := toString smap.Version }
  { cur := smap2, notified := st.notified ++ [smap2.Version] }

/-- `smapModifier`: the modification context.  Only the `pre` stage decides
commit/abort; `post`/`final` observe the committed clone and mutate the
context or external collaborators, not the owner state modelled here.  `pre`
returns the mutated clone or an error. -/
structure smapModifier where
  pre : smapX → Except AisErr smapX

/-- `r._runPre(ctx)`: snapshot, clone, run `pre` on the clone, persist, and on
success publish (`put`).  `persistErr` injects the outcome of
`r.persist(clone)` (`none` = wrote durably); a failure is wrapped as a
"failed to persist" error and nothing is published. -/
def OwnerState._runPre (st : OwnerState) (ctx : smapModifier) (persistErr : Option String) :
    OwnerState × Except AisErr smapX :=
  let clone := st.cur.clone
  match ctx.pre clone with
  | Except.error e => (st, Except.error e)
  | Except.ok clone2 =>
      match persistErr with
      | some msg => (st, Except.error (AisErr.failedTo ("persist") msg))
      | none => (st.put clone2, Except.ok clone2)

/-- `r.modify(ctx)`: run `_runPre`; on success the caller's `final` stage runs
outside the lock (it does not touch the owner state modelled here). -/
def OwnerState.modify (st : OwnerState) (ctx : smapModifier) (persistErr : Option String) :
    OwnerState × Option AisErr :=
  match st._runPre ctx persistErr with
  | (st2, Except.error e) => (st2, some e)
  | (st2, Except.ok _) => (st2, none)

/-- `r.synchronize(si, newSmap, payload)`: validate the candidate, adopt the
candidate's view of the local node's flags, reject non-newer versions
(downgrade error when strictly older), else persist (raw payload bytes when
available, encoding otherwise) and publish on success.  `payloadDone` injects
the outcome of `persistBytes(payload)`; `persistErr` the outcome of
`persist(newSmap)`.  Returns the new owner state, the (possibly flag-updated)
local node, and the error. -/
def OwnerState.synchronize (st : OwnerState) (si : Snode) (newSmap : smapX)
    (payloadDone : Bool) (persistErr : Option String) :
    OwnerState × Snode × Option AisErr :=
  match smapX.validate (some newSmap) with
  | some e => (st, si, some e)
  | none =>
      let si2 :=
        match newSmap.GetNode si.id with
        | some nsi => if si.flags ≠ nsi.flags then { si with flags := nsi.flags } else si
        | none => si
      if newSmap.Version ≤ st.cur.Version then
        if newSmap.Version < st.cur.Version then
          (st, si2, some (AisErr.downgrade (st.cur.str ++ " to " ++ newSmap.str)))
        else (st, si2, none)
      else
        let perr : Option String := if payloadDone then none else persistErr
        match perr with
        | some msg => (st, si2, some (AisErr.failedTo ("persist") msg))
        | none => (st.put newSmap, si2, none)

/-
Reference-level model of `clone()`.  Nodes live in a heap addressed by `Nat`
references; the snapshot's maps are association lists of references, exactly
mirroring Go's maps of pointers.  `clone()` allocates a fresh node for every
entry (`v.Clone()`), so mutations through the clone's references can be shown
to leave every node reachable from the original untouched.
-/

/-- A heap of nodes: a store and the next fresh address. -/
structure Heap where
  store : Nat → Snode
  next : Nat

/-- Read a node through a reference. -/
def Heap.read (h : Heap) (r : Nat) : Snode :=
  h.store r

/-- Overwrite the node behind a reference (an in-place `Snode` mutation). -/
def Heap.write (h : Heap) (r : Nat) (v : Snode) : Heap :=
  { h with store := fun r2 => if r2 = r then v else h.store r2 }

/-- Allocate a fresh node (`v.Clone()` allocates a copy). -/
def Heap.alloc (h : Heap) (v : Snode) : Nat × Heap :=
  (h.next, { store := fun r2 => if r2 = h.next then v else h.store r2, next := h.next + 1 })

/-- Apply a sequence of in-place node mutations. -/
def Heap.applyWrites (h : Heap) (ws : List (Nat × Snode)) : Heap :=
  ws.foldl (fun h w => h.write w.1 w.2) h

/-- A node map at the reference level: id to pointer. -/
abbrev RefMap := List (String × Nat)

/-- Go map read on a reference-level map. -/
def RefMap.get : RefMap → String → Option Nat
  | [], _ => none
  | (k, r) :: rest, id => if k = id then some r else RefMap.get rest id

/-- `smapX` at the reference level: the maps hold pointers into the heap. -/
structure smapR where
  Tmap : RefMap
  Pmap : RefMap
  Primary : Option Nat
  Version : Int
  UUID : String
  CreationTime : String
  vstr : String

/-- Every reference reachable from a snapshot. -/
def smapR.refs (m : smapR) : List Nat :=
  m.Tmap.map Prod.snd ++ m.Pmap.map Prod.snd ++
    (match m.Primary with | some r => [r] | none => [])

/-- The copy loop of `clone()` over one map: `dst[id] = v.Clone()` — read the
node, allocate a fresh copy, bind it to the same id. -/
def cloneMapR : RefMap → Heap → RefMap × Heap
  | [], h => ([], h)
  | (id, r) :: rest, h =>
      let a := h.alloc (h.read r)
      let t := cloneMapR rest a.2
      ((id, a.1) :: t.1, t.2)

/-- `m.clone()` at the reference level: scalar fields (including the cached
`vstr`) copied, both maps deep-copied entry by entry, the primary re-resolved
against the new proxy map by the old primary's id.  Nil primary: Go aborts;
modelled as `none`. -/
def smapR.clone (m : smapR) (h : Heap) : smapR × Heap :=
  let t := cloneMapR m.Tmap h
  let p := cloneMapR m.Pmap t.2
  ({ Tmap := t.1, Pmap := p.1,
     Primary :=
       match m.Primary with
       | some pr => RefMap.get p.1 ((h.read pr).id)
       | none => none,
     Version := m.Version, UUID := m.UUID, CreationTime := m.CreationTime,
     vstr := m.vstr }, p.2)


theorem NodeMap.get_set (l : NodeMap) (k k2 : String) (v : Snode) :
    NodeMap.get (NodeMap.set l k v) k2 = if k = k2 then some v else NodeMap.get l k2 := by
  induction l with
  | nil => simp [NodeMap.set, NodeMap.get]
  | cons e rest ih =>
      obtain ⟨k0, v0⟩ := e
      by_cases h0 : k0 = k
      · subst h0
        simp only [NodeMap.set, if_pos rfl, NodeMap.get]
        by_cases h : k0 = k2 <;> simp [h]
      · simp only [NodeMap.set, if_neg h0, NodeMap.get]
        by_cases h : k0 = k2
        · subst h
          have hne : ¬ k = k0 := fun hc => h0 hc.symm
          simp [hne]
        · simp [h, ih]

theorem NodeMap.get_del (l : NodeMap) (k k2 : String) :
    NodeMap.get (NodeMap.del l k) k2 = if k = k2 then none else NodeMap.get l k2 := by
  induction l with
  | nil => simp [NodeMap.del, NodeMap.get]
  | cons e rest ih =>
      obtain ⟨k0, v0⟩ := e
      by_cases h0 : k0 = k
      · subst h0
        have hd : NodeMap.del ((k0, v0) :: rest) k0 = NodeMap.del rest k0 := by
          simp [NodeMap.del, List.filter]
        rw [hd, ih]
        by_cases h : k0 = k2
        · simp [h]
        · simp [h, NodeMap.get]
      · have hb : (k0 != k) = true := by simpa [bne_iff_ne] using h0
        have hd : NodeMap.del ((k0, v0) :: rest) k = (k0, v0) :: NodeMap.del rest k := by
          simp [NodeMap.del, List.filter, hb]
        rw [hd]
        by_cases h : k0 = k2
        · subst h
          have hne : ¬ k = k0 := fun hc => h0 hc.symm
          simp [NodeMap.get, hne]
        · simp [NodeMap.get, h, ih]

theorem NodeMap.mem_set (l : NodeMap) (k : String) (v : Snode) (e : String × Snode)
    (h : e ∈ NodeMap.set l k v) : e ∈ l ∨ e = (k, v) := by
  induction l with
  | nil =>
      simp [NodeMap.set] at h
      right; exact h
  | cons e0 rest ih =>
      obtain ⟨k0, v0⟩ := e0
      by_cases h0 : k0 = k
      · simp [NodeMap.set, h0] at h
        rcases h with h | h
        · right; simpa using h
        · left; simp [h]
      · simp [NodeMap.set, h0] at h
        rcases h with h | h
        · left; simp [h]
        · rcases ih h with h2 | h2
          · left; simp [h2]
          · right; exact h2

theorem NodeMap.mem_keys_iff (l : NodeMap) (k : String) :
    k ∈ NodeMap.keys l ↔ ∃ v, (k, v) ∈ l := by
  simp only [NodeMap.keys, List.mem_map]
  constructor
  · rintro ⟨⟨ka, va⟩, hm, rfl⟩
    exact ⟨va, hm⟩
  · rintro ⟨v, hm⟩
    exact ⟨(k, v), hm, rfl⟩

theorem NodeMap.keys_set_of_mem (l : NodeMap) (k : String) (v : Snode)
    (h : k ∈ NodeMap.keys l) : NodeMap.keys (NodeMap.set l k v) = NodeMap.keys l := by
  induction l with
  | nil => simp [NodeMap.keys] at h
  | cons e0 rest ih =>
      obtain ⟨k0, v0⟩ := e0
      by_cases h0 : k0 = k
      · subst h0
        simp [NodeMap.set, NodeMap.keys]
      · have h2 : k ∈ NodeMap.keys rest := by
          simp [NodeMap.keys] at h ⊢
          rcases h with h | h
          · exact absurd h.symm h0
          · exact h
        rw [show NodeMap.set ((k0, v0) :: rest) k v = (k0, v0) :: NodeMap.set rest k v from by
          simp [NodeMap.set, h0]]
        simp only [NodeMap.keys, List.map_cons] at ih ⊢
        rw [ih h2]

theorem NodeMap.get_some_mem (l : NodeMap) (k : String) (v : Snode)
    (h : NodeMap.get l k = some v) : (k, v) ∈ l := by
  induction l with
  | nil => simp [NodeMap.get] at h
  | cons e0 rest ih =>
      obtain ⟨k0, v0⟩ := e0
      by_cases h0 : k0 = k
      · subst h0
        simp [NodeMap.get] at h
        subst h
        simp
      · simp [NodeMap.get, h0] at h
        exact List.mem_cons_of_mem _ (ih h)

theorem NodeMap.get_some_mem_keys (l : NodeMap) (k : String) (v : Snode)
    (h : NodeMap.get l k = some v) : k ∈ NodeMap.keys l :=
  (NodeMap.mem_keys_iff l k).2 ⟨v, NodeMap.get_some_mem l k v h⟩

theorem NodeMap.countIC_set_le (l : NodeMap) (k : String) (v : Snode) :
    NodeMap.countIC (NodeMap.set l k v) ≤ NodeMap.countIC l + 1 := by
  induction l with
  | nil =>
      simp [NodeMap.set, NodeMap.countIC]
      split <;> omega
  | cons e0 rest ih =>
      obtain ⟨k0, v0⟩ := e0
      by_cases h0 : k0 = k
      · subst h0
        rw [show NodeMap.set ((k0, v0) :: rest) k0 v = (k0, v) :: rest from by
          simp [NodeMap.set]]
        simp only [NodeMap.countIC]
        split <;> split <;> omega
      · simp only [NodeMap.set, if_neg h0, NodeMap.countIC]
        omega

theorem NodeMap.countIC_set_le_self (l : NodeMap) (k : String) (v : Snode)
    (hv : v.flags.ic = false) : NodeMap.countIC (NodeMap.set l k v) ≤ NodeMap.countIC l := by
  induction l with
  | nil => simp [NodeMap.set, NodeMap.countIC, hv]
  | cons e0 rest ih =>
      obtain ⟨k0, v0⟩ := e0
      by_cases h0 : k0 = k
      · subst h0
        rw [show NodeMap.set ((k0, v0) :: rest) k0 v = (k0, v) :: rest from by
          simp [NodeMap.set]]
        simp [NodeMap.countIC, hv]
      · simp only [NodeMap.set, if_neg h0, NodeMap.countIC]
        omega

theorem NodeMap.countIC_set_exact (l : NodeMap) (k : String) (v w : Snode)
    (hnd : (NodeMap.keys l).Nodup) (hw : NodeMap.get l k = some w) :
    NodeMap.countIC (NodeMap.set l k v) + (if w.flags.ic then 1 else 0) =
      NodeMap.countIC l + (if v.flags.ic then 1 else 0) := by
  induction l with
  | nil => simp [NodeMap.get] at hw
  | cons e0 rest ih =>
      obtain ⟨k0, v0⟩ := e0
      simp only [NodeMap.keys, List.map_cons, List.nodup_cons] at hnd
      obtain ⟨hk0, hnd2⟩ := hnd
      by_cases h0 : k0 = k
      · subst h0
        simp [NodeMap.get] at hw
        subst hw
        rw [show NodeMap.set ((k0, v0) :: rest) k0 v = (k0, v) :: rest from by
          simp [NodeMap.set]]
        simp [NodeMap.countIC]
        omega
      · simp only [NodeMap.get, if_neg h0] at hw
        simp only [NodeMap.set, if_neg h0, NodeMap.countIC]
        have hrec := ih hnd2 hw
        by_cases hwic : w.flags.ic <;> by_cases hvic : v.flags.ic <;>
          simp [hwic, hvic] at hrec ⊢ <;> omega

theorem NodeMap.exists_ic_of_countIC_pos (l : NodeMap) (h : 1 ≤ NodeMap.countIC l) :
    ∃ e ∈ l, e.2.flags.ic = true := by
  induction l with
  | nil => simp [NodeMap.countIC] at h
  | cons e0 rest ih =>
      obtain ⟨k0, v0⟩ := e0
      by_cases hv : v0.flags.ic
      · exact ⟨(k0, v0), by simp, hv⟩
      · simp [NodeMap.countIC, hv] at h
        obtain ⟨e, he, hic⟩ := ih h
        exact ⟨e, by simp [he], hic⟩

theorem NodeMap.exists_nonprimary_ic (l : NodeMap) (pid : String)
    (hnd : (NodeMap.keys l).Nodup) (h : 2 ≤ NodeMap.countIC l) :
    ∃ e ∈ l, e.2.flags.ic = true ∧ e.1 ≠ pid := by
  induction l with
  | nil => simp [NodeMap.countIC] at h
  | cons e0 rest ih =>
      obtain ⟨k0, v0⟩ := e0
      simp only [NodeMap.keys, List.map_cons, List.nodup_cons] at hnd
      obtain ⟨hk0, hnd2⟩ := hnd
      by_cases hv : v0.flags.ic
      · by_cases hp : k0 = pid
        · subst hp
          have h1 : 1 ≤ NodeMap.countIC rest := by
            simp [NodeMap.countIC, hv] at h; omega
          obtain ⟨e, he, hic⟩ := NodeMap.exists_ic_of_countIC_pos rest h1
          refine ⟨e, by simp [he], hic, ?_⟩
          intro hcon
          apply hk0
          rw [← hcon]
          exact List.mem_map_of_mem Prod.fst he
        · exact ⟨(k0, v0), by simp, hv, hp⟩
      · simp [NodeMap.countIC, hv] at h
        obtain ⟨e, he, hic, hne⟩ := ih hnd2 h
        exact ⟨e, by simp [he], hic, hne⟩

/-
IC-maintenance lemmas: the committee size bound.
-/

theorem Snode.isTarget_flags (si : Snode) (nf : BitFlags) :
    Snode.IsTarget { si with flags := nf } = si.IsTarget := rfl

theorem smapX.ICCount_applyFlags_le (m : smapX) (si : Snode) (nf : BitFlags) :
    (m._applyFlags si nf).ICCount ≤ m.ICCount + 1 := by
  unfold smapX._applyFlags smapX.ICCount
  by_cases ht : Snode.IsTarget { si with flags := nf }
  · simp [ht]
  · simp [ht]
    exact NodeMap.countIC_set_le _ _ _

theorem smapX.ICCount_applyFlags_le_self (m : smapX) (si : Snode) (nf : BitFlags)
    (hic : nf.ic = false) : (m._applyFlags si nf).ICCount ≤ m.ICCount := by
  unfold smapX._applyFlags smapX.ICCount
  by_cases ht : Snode.IsTarget { si with flags := nf }
  · simp [ht]
  · simp [ht]
    exact NodeMap.countIC_set_le_self _ _ _ hic

theorem smapX.ICCount_setNodeFlags_le (m : smapX) (sid : String) (fl : BitFlags) :
    (m.setNodeFlags sid fl).ICCount ≤ m.ICCount + 1 := by
  unfold smapX.setNodeFlags
  cases hg : m.GetNode sid with
  | none => simp
  | some si =>
      simp only
      split
      · exact smapX.ICCount_applyFlags_le m si _
      · exact smapX.ICCount_applyFlags_le m si _

theorem smapX.ICCount_clearIC_le (m : smapX) (sid : String) :
    (m.clearNodeFlags sid SnodeIC).ICCount ≤ m.ICCount := by
  unfold smapX.clearNodeFlags
  cases hg : m.GetNode sid with
  | none => simp
  | some si =>
      simp only
      exact smapX.ICCount_applyFlags_le_self m si _ (by simp [BitFlags.Clear, SnodeIC])

theorem smapX.ICCount_addIC_le (m : smapX) (si : Snode) :
    (m.addIC si).ICCount ≤ m.ICCount + 1 := by
  unfold smapX.addIC
  split
  · omega
  · exact smapX.ICCount_setNodeFlags_le m si.id SnodeIC

theorem smapX.fillICLoop_bound (l : List (String × Snode)) :
    ∀ m : smapX, m.ICCount < DefaultICSize → (m.fillICLoop l).ICCount ≤ DefaultICSize := by
  induction l with
  | nil => intro m hm; simpa [smapX.fillICLoop] using le_of_lt hm
  | cons e rest ih =>
      intro m hm
      obtain ⟨k0, si⟩ := e
      unfold smapX.fillICLoop
      split
      · exact ih m hm
      · have hle := smapX.ICCount_addIC_le m si
        dsimp only
        split
        · omega
        · next h2 =>
            exact ih (m.addIC si) (by omega)

theorem smapX.fillIC_bound (m : smapX) (hm : m.ICCount ≤ DefaultICSize) :
    m._fillIC.ICCount ≤ DefaultICSize := by
  unfold smapX._fillIC
  split
  · exact hm
  · next h => exact smapX.fillICLoop_bound m.Pmap m (by omega)

theorem smapX.evictICLoop_le (l : List (String × Snode)) (m : smapX) :
    (m.evictICLoop l).ICCount ≤ m.ICCount := by
  induction l with
  | nil => simp [smapX.evictICLoop]
  | cons e rest ih =>
      obtain ⟨sid, si⟩ := e
      unfold smapX.evictICLoop
      split
      · exact ih
      · exact smapX.ICCount_clearIC_le m sid

theorem smapX.evictIC_le (m : smapX) : m.evictIC.ICCount ≤ m.ICCount := by
  unfold smapX.evictIC
  split
  · exact le_refl _
  · exact smapX.evictICLoop_le m.Pmap m

/-- One step of the IC-maintenance interface: a `_fillIC()` or `evictIC()`
call. -/
inductive ICOp where
  | fill
  | evict
deriving DecidableEq, Repr

/-- Apply a sequence of `_fillIC`/`evictIC` calls to a snapshot. -/
def smapX.applyICOps (m : smapX) : List ICOp → smapX
  | [] => m
  | ICOp.fill :: rest => (m._fillIC).applyICOps rest
  | ICOp.evict :: rest => (m.evictIC).applyICOps rest

/-- C1 (amended): starting from any snapshot whose IC member count is within
the bound, every sequence of `_fillIC`/`evictIC` calls keeps the IC member
count at most `DefaultICSize`. -/
theorem c1_ic_bound_preserved (m : smapX) (ops : List ICOp)
    (h : m.ICCount ≤ DefaultICSize) :
    (m.applyICOps ops).ICCount ≤ DefaultICSize := by
  induction ops generalizing m with
  | nil => simpa [smapX.applyICOps] using h
  | cons op rest ih =>
      cases op with
      | fill =>
          simpa [smapX.applyICOps] using ih m._fillIC (smapX.fillIC_bound m h)
      | evict =>
          simpa [smapX.applyICOps] using
            ih m.evictIC (le_trans (smapX.evictIC_le m) h)

/-
Concrete snapshots used by counterexamples and witnesses.
-/

/-- Example IC proxy, also the primary of the oversized example snapshots. -/
def nodeP1 : Snode := ⟨"p1", Role.proxy, ⟨false, true, false, false⟩, "up1"⟩

/-- Example IC proxy. -/
def nodeP2 : Snode := ⟨"p2", Role.proxy, ⟨false, true, false, false⟩, "up2"⟩

/-- Example IC proxy. -/
def nodeP3 : Snode := ⟨"p3", Role.proxy, ⟨false, true, false, false⟩, "up3"⟩

/-- Example IC proxy. -/
def nodeP4 : Snode := ⟨"p4", Role.proxy, ⟨false, true, false, false⟩, "up4"⟩

/-- Example IC proxy. -/
def nodeP5 : Snode := ⟨"p5", Role.proxy, ⟨false, true, false, false⟩, "up5"⟩

/-- Example electable non-IC proxy. -/
def nodeQ2 : Snode := ⟨"p2", Role.proxy, ⟨false, false, false, false⟩, "up2"⟩

/-- Example electable non-IC proxy. -/
def nodeQ3 : Snode := ⟨"p3", Role.proxy, ⟨false, false, false, false⟩, "up3"⟩

/-- A snapshot whose five proxies are all IC members — more than
`DefaultICSize` = 3. -/
def smap5IC : smapX :=
  ⟨[], [("p1", nodeP1), ("p2", nodeP2), ("p3", nodeP3), ("p4", nodeP4), ("p5", nodeP5)],
    some nodeP1, 9, "abc", "", "9"⟩

/-- A well-formed snapshot with IC membership within the bound. -/
def smap3OK : smapX :=
  ⟨[], [("p1", nodeP1), ("p2", nodeQ2), ("p3", nodeQ3)], some nodeP1, 9, "abc", "", "9"⟩

/-- C1 counterexample: on a snapshot with five IC members (bound 3), a single
`evictIC` call leaves four IC members — still above `DefaultICSize` — so the
claimed unconditional bound, and the claim that one `evictIC` restores the
bound, both fail. -/
theorem c1_counterexample :
    DefaultICSize < smap5IC.ICCount ∧ DefaultICSize < smap5IC.evictIC.ICCount := by
  decide

/-- C1 witness: the amended bound theorem applied to a concrete snapshot and
a concrete call sequence. -/
theorem c1_witness :
    (smap3OK.applyICOps [ICOp.fill, ICOp.evict, ICOp.fill]).ICCount ≤ DefaultICSize :=
  c1_ic_bound_preserved smap3OK [ICOp.fill, ICOp.evict, ICOp.fill] (by decide)

/-
putNode: the upsert transaction (claim C4).
-/

/-- A proxy that re-joins under the id of `nodeP1` with different properties. -/
def nodeR1 : Snode := ⟨"p1", Role.proxy, ⟨false, false, false, false⟩, "up1b"⟩

/-- A snapshot holding the single proxy `nodeP1`. -/
def smapP : smapX := ⟨[], [("p1", nodeP1)], some nodeP1, 4, "abc", "", "4"⟩

/-- A target node of the example snapshot `smapPT`. -/
def nodeT1 : Snode := ⟨"t1", Role.target, ⟨false, false, false, false⟩, "ut1"⟩

/-- A target that re-joins under the id of `nodeT1` with different
properties. -/
def nodeT1b : Snode := ⟨"t1", Role.target, ⟨false, false, false, false⟩, "ut1b"⟩

/-- A snapshot holding the target `nodeT1` and the proxy `nodeP1`. -/
def smapPT : smapX := ⟨[("t1", nodeT1)], [("p1", nodeP1)], some nodeP1, 4, "abc", "", "4"⟩

/-- C4 (amended): re-joining a node whose id already exists under the same
role — proxy or target — replaces the old entry with the new node, reports
`exists = true`, leaves all other entries and the other role's map alone —
and increments the version exactly twice (once for the delete, once for the
add). -/
theorem c4_putNode_replaces (m : smapX) (nsi old : Snode) (fl : BitFlags)
    (hsame :
      (nsi.IsProxy = true ∧ m.GetProxy nsi.id = some old ∧ m.GetTarget nsi.id = none) ∨
      (nsi.IsTarget = true ∧ m.GetTarget nsi.id = some old ∧ m.GetProxy nsi.id = none)) :
    (m.putNode nsi fl).2 = true ∧
    (m.putNode nsi fl).1.Version = m.Version + 2 ∧
    (nsi.IsProxy = true →
      NodeMap.get (m.putNode nsi fl).1.Pmap nsi.id = some { nsi with flags := fl } ∧
      (∀ k, k ≠ nsi.id → NodeMap.get (m.putNode nsi fl).1.Pmap k = NodeMap.get m.Pmap k) ∧
      (m.putNode nsi fl).1.Tmap = m.Tmap) ∧
    (nsi.IsTarget = true →
      NodeMap.get (m.putNode nsi fl).1.Tmap nsi.id = some { nsi with flags := fl } ∧
      (∀ k, k ≠ nsi.id → NodeMap.get (m.putNode nsi fl).1.Tmap k = NodeMap.get m.Tmap k) ∧
      (m.putNode nsi fl).1.Pmap = m.Pmap) := by
  rcases hsame with ⟨hrole, hold, ht⟩ | ⟨hrole, hold, ht⟩
  · -- the proxy re-join branch
    have hrl : nsi.role = Role.proxy := by
      cases hr : nsi.role
      · rfl
      · exfalso
        rw [show nsi.IsProxy = false from by simp [Snode.IsProxy, hr]] at hrole
        cases hrole
    have hproxy : Snode.IsProxy { nsi with flags := fl } = true := by
      simp [Snode.IsProxy, hrl]
    have hgetdel : NodeMap.get (m.Pmap.del nsi.id) nsi.id = none := by
      rw [NodeMap.get_del]; simp
    have hdel : m.delProxy nsi.id =
        { m with Pmap := m.Pmap.del nsi.id, Version := m.Version + 1 } := by
      unfold smapX.delProxy
      rw [hold]
      rfl
    have hadd : smapX.addProxy
        { m with Pmap := m.Pmap.del nsi.id, Version := m.Version + 1 }
        { nsi with flags := fl } =
        { m with Pmap := (m.Pmap.del nsi.id).set nsi.id { nsi with flags := fl },
                 Version := m.Version + 1 + 1 } := by
      unfold smapX.addProxy smapX.GetNode smapX.GetTarget smapX.GetProxy
      dsimp only
      rw [show m.Tmap.get nsi.id = none from ht, hgetdel]
      simp
    have hres : m.putNode nsi fl =
        ({ m with Pmap := (m.Pmap.del nsi.id).set nsi.id { nsi with flags := fl },
                  Version := m.Version + 1 + 1 }, true) := by
      unfold smapX.putNode
      dsimp only
      rw [hproxy]
      simp only [if_true]
      rw [show m.GetProxy nsi.id = some old from hold]
      simp only [Option.isSome_some, if_true]
      rw [hdel, hadd]
    rw [hres]
    refine ⟨rfl, by dsimp only; omega, ?_, ?_⟩
    · intro _
      refine ⟨?_, ?_, rfl⟩
      · dsimp only
        rw [NodeMap.get_set]
        simp
      · intro k hk
        dsimp only
        rw [NodeMap.get_set, NodeMap.get_del]
        have hne : ¬ nsi.id = k := fun hc => hk hc.symm
        simp [hne]
    · intro hT
      exfalso
      rw [show nsi.IsTarget = false from by simp [Snode.IsTarget, hrl]] at hT
      cases hT
  · -- the target re-join branch (clustermap.go:300-306)
    have hrl : nsi.role = Role.target := by
      cases hr : nsi.role
      · exfalso
        rw [show nsi.IsTarget = false from by simp [Snode.IsTarget, hr]] at hrole
        cases hrole
      · rfl
    have hnproxy : Snode.IsProxy { nsi with flags := fl } = false := by
      simp [Snode.IsProxy, hrl]
    have hgetdel : NodeMap.get (m.Tmap.del nsi.id) nsi.id = none := by
      rw [NodeMap.get_del]; simp
    have hdel : m.delTarget nsi.id =
        { m with Tmap := m.Tmap.del nsi.id, Version := m.Version + 1 } := by
      unfold smapX.delTarget
      rw [hold]
      rfl
    have hadd : smapX.addTarget
        { m with Tmap := m.Tmap.del nsi.id, Version := m.Version + 1 }
        { nsi with flags := fl } =
        { m with Tmap := (m.Tmap.del nsi.id).set nsi.id { nsi with flags := fl },
                 Version := m.Version + 1 + 1 } := by
      unfold smapX.addTarget smapX.GetNode smapX.GetTarget smapX.GetProxy
      dsimp only
      rw [hgetdel, show m.Pmap.get nsi.id = none from ht]
      simp
    have hres : m.putNode nsi fl =
        ({ m with Tmap := (m.Tmap.del nsi.id).set nsi.id { nsi with flags := fl },
                  Version := m.Version + 1 + 1 }, true) := by
      unfold smapX.putNode
      dsimp only
      rw [if_neg (show ¬ Snode.IsProxy { nsi with flags := fl } = true from by
        rw [hnproxy]; simp)]
      rw [show m.GetTarget nsi.id = some old from hold]
      simp only [Option.isSome_some, if_true]
      rw [hdel, hadd]
    rw [hres]
    refine ⟨rfl, by dsimp only; omega, ?_, ?_⟩
    · intro hP
      exfalso
      rw [show nsi.IsProxy = false from by simp [Snode.IsProxy, hrl]] at hP
      cases hP
    · intro _
      refine ⟨?_, ?_, rfl⟩
      · dsimp only
        rw [NodeMap.get_set]
        simp
      · intro k hk
        dsimp only
        rw [NodeMap.get_set, NodeMap.get_del]
        have hne : ¬ nsi.id = k := fun hc => hk hc.symm
        simp [hne]

/-- C4 counterexample: replacing the proxy entry bumps the version twice, not
"exactly once" as claimed — from version 4 the result is 6, not 5. -/
theorem c4_counterexample :
    (smapP.putNode nodeR1 BitFlags.zero).2 = true ∧
    (smapP.putNode nodeR1 BitFlags.zero).1.Version ≠ smapP.Version + 1 ∧
    (smapP.putNode nodeR1 BitFlags.zero).1.Version = smapP.Version + 2 := by
  decide

/-- C4 witness: the amended theorem applied to a concrete proxy re-join and a
concrete target re-join. -/
theorem c4_witness :
    ((smapP.putNode nodeR1 BitFlags.zero).2 = true ∧
     (smapP.putNode nodeR1 BitFlags.zero).1.Version = smapP.Version + 2) ∧
    ((smapPT.putNode nodeT1b BitFlags.zero).2 = true ∧
     (smapPT.putNode nodeT1b BitFlags.zero).1.Version = smapPT.Version + 2) :=
  ⟨⟨(c4_putNode_replaces smapP nodeR1 nodeP1 BitFlags.zero
      (Or.inl ⟨rfl, by decide, rfl⟩)).1,
    (c4_putNode_replaces smapP nodeR1 nodeP1 BitFlags.zero
      (Or.inl ⟨rfl, by decide, rfl⟩)).2.1⟩,
   ⟨(c4_putNode_replaces smapPT nodeT1b nodeT1 BitFlags.zero
      (Or.inr ⟨rfl, by decide, by decide⟩)).1,
    (c4_putNode_replaces smapPT nodeT1b nodeT1 BitFlags.zero
      (Or.inr ⟨rfl, by decide, by decide⟩)).2.1⟩⟩

/-
validate: which invariants it actually checks (claim C5).
-/

/-- Target node sharing the id of a proxy entry, for the C5 counterexample. -/
def nodeTX : Snode := ⟨"x", Role.target, ⟨false, false, false, false⟩, "utx"⟩

/-- Proxy node sharing the id of a target entry, for the C5 counterexample. -/
def nodePX : Snode := ⟨"x", Role.proxy, ⟨false, true, false, false⟩, "upx"⟩

/-- The shared id of `nodeTX`/`nodePX`. -/
def idX : String := "x"

/-- A snapshot that passes `validate` although the id `x` sits in both maps
and five proxies carry the IC flag (bound 3). -/
def smapBad : smapX :=
  ⟨[("x", nodeTX)],
    [("x", nodePX), ("p1", nodeP1), ("p2", nodeP2), ("p3", nodeP3), ("p4", nodeP4)],
    some nodeP1, 2, "abc", "", "2"⟩

/-- C5 (amended): `validate` returns nil exactly when the snapshot is non-nil
with a non-zero version, a primary that is set and present under its role,
and a valid UUID; it checks neither target/proxy id-disjointness nor the IC
size bound. -/
theorem c5_validate_characterization (m : smapX) :
    smapX.validate (some m) = none ↔
      (m.Version ≠ 0 ∧
        ∃ p, m.Primary = some p ∧ m.isPresent p = true ∧ IsValidUUID m.UUID = true) := by
  unfold smapX.validate
  by_cases hv : m.Version = 0
  · simp [hv]
  · simp only [hv, if_false, if_neg hv]
    cases hp : m.Primary with
    | none => simp
    | some p =>
        by_cases hpres : m.isPresent p
        · by_cases hu : IsValidUUID m.UUID
          · simp [hpres, hu, hv]
          · simp [hpres, hu, hv]
        · simp [hpres, hv]

/-- C5 counterexample: `smapBad` violates both listed invariants — the id `x`
appears in targets and proxies, and the IC count exceeds `DefaultICSize` —
yet `validate` returns nil, so the claimed equivalence with "all five
invariants" fails. -/
theorem c5_counterexample :
    smapX.validate (some smapBad) = none ∧
    (NodeMap.get smapBad.Tmap idX).isSome = true ∧
    (NodeMap.get smapBad.Pmap idX).isSome = true ∧
    DefaultICSize < smapBad.ICCount := by
  decide

/-
validateUUID: the cluster-integrity error (claim C9).
-/

/-- C9: `validateUUID` errs exactly when both snapshots are present, the
candidate's version is non-zero, both uuids are valid, and they differ — and
every error it returns is the distinct cluster-integrity type
`errSmapUUIDDiffer`. -/
theorem c9_validateUUID_spec (m newSmap : Option smapX) (si : Snode)
    (caller : String) (cieNum : Nat) :
    ((smapX.validateUUID m si newSmap caller cieNum).isSome = true ↔
      (∃ a b, m = some a ∧ newSmap = some b ∧ b.Version ≠ 0 ∧
        IsValidUUID a.UUID = true ∧ IsValidUUID b.UUID = true ∧ a.UUID ≠ b.UUID)) ∧
    (smapX.validateUUID m si newSmap caller cieNum).all AisErr.isUUIDDiffer = true := by
  cases m with
  | none => simp [smapX.validateUUID]
  | some a =>
      cases newSmap with
      | none => simp [smapX.validateUUID]
      | some b =>
          unfold smapX.validateUUID
          by_cases hv : b.Version = 0
          · simp [hv]
          · by_cases hua : IsValidUUID a.UUID
            · by_cases hub : IsValidUUID b.UUID
              · by_cases he : a.UUID = b.UUID
                · simp [hv, hua, hub, he]
                · simp [hv, hua, hub, he, Option.all, AisErr.isUUIDDiffer]
              · simp [hv, hua, hub]
            · simp [hv, hua]

/-
modify / _runPre: the abort paths (claim C2).
-/

/-- C2: if the caller's `pre` stage fails, or persisting the clone fails,
`modify` returns an error — the persist failure wrapped as a
"failed to persist" error — the published snapshot is unchanged, the clone is
never published, and no change notification is emitted (the whole owner state
is returned untouched). -/
theorem c2_modify_abort (st : OwnerState) (ctx : smapModifier)
    (persistErr : Option String) (msg : String)
    (h : (∃ e, ctx.pre st.cur.clone = Except.error e) ∨ persistErr = some msg) :
    (st.modify ctx persistErr).1 = st ∧
    (st.modify ctx persistErr).2 =
      some (match ctx.pre st.cur.clone with
            | Except.error e => e
            | Except.ok _ => AisErr.failedTo ("persist") msg) := by
  unfold OwnerState.modify OwnerState._runPre
  dsimp only
  cases hpre : ctx.pre st.cur.clone with
  | error e => exact ⟨rfl, rfl⟩
  | ok clone2 =>
      rcases h with ⟨e, he⟩ | hpe
      · rw [hpre] at he; cases he
      · subst hpe
        exact ⟨rfl, rfl⟩

/-- A modification context whose `pre` stage always rejects. -/
def ctxFail : smapModifier := ⟨fun _ => Except.error (AisErr.validation ("pre failed"))⟩

/-- A modification context whose `pre` stage accepts the clone unchanged. -/
def ctxOK : smapModifier := ⟨fun c => Except.ok c⟩

/-- The owner guard holding `smap3OK` with no notifications yet. -/
def stEx0 : OwnerState := ⟨smap3OK, []⟩

/-- C2 witness: the abort theorem applied to a concrete failing `pre`. -/
theorem c2_witness :
    (stEx0.modify ctxFail none).1 = stEx0 ∧
    (stEx0.modify ctxFail none).2 =
      some (match ctxFail.pre stEx0.cur.clone with
            | Except.error e => e
            | Except.ok _ => AisErr.failedTo ("persist") "") :=
  c2_modify_abort stEx0 ctxFail none ""
    (Or.inl ⟨AisErr.validation ("pre failed"), rfl⟩)

/-
synchronize: rejection of non-newer candidates (claim C3).
-/

/-- C3 (amended): provided the candidate passes `validate`, a `synchronize`
call whose candidate version is at most the current version leaves the owner
state (published snapshot and notification log) untouched, returns a
downgrade error when the candidate is strictly older, and returns no error
when the versions are equal. -/
theorem c3_synchronize_nonnewer (st : OwnerState) (si : Snode) (newSmap : smapX)
    (payloadDone : Bool) (persistErr : Option String)
    (hval : smapX.validate (some newSmap) = none)
    (hle : newSmap.Version ≤ st.cur.Version) :
    (st.synchronize si newSmap payloadDone persistErr).1 = st ∧
    (newSmap.Version < st.cur.Version →
      ∃ s, (st.synchronize si newSmap payloadDone persistErr).2.2 =
        some (AisErr.downgrade s)) ∧
    (newSmap.Version = st.cur.Version →
      (st.synchronize si newSmap payloadDone persistErr).2.2 = none) := by
  unfold OwnerState.synchronize
  rw [hval]
  dsimp only
  rw [if_pos hle]
  by_cases hlt : newSmap.Version < st.cur.Version
  · rw [if_pos hlt]
    exact ⟨rfl, fun _ => ⟨_, rfl⟩, fun heq => absurd heq (by omega)⟩
  · rw [if_neg hlt]
    exact ⟨rfl, fun hc => absurd hc hlt, fun _ => rfl⟩

/-- An invalid candidate snapshot (no primary) with the same version as
`smapP`. -/
def smapNoPrimary : smapX := ⟨[], [], none, 4, "abc", "", "4"⟩

/-- The owner guard holding `smapP`. -/
def stExP : OwnerState := ⟨smapP, []⟩

/-- C3 counterexample: with an (invalid) candidate whose version equals the
current one, `synchronize` returns an error — the claim's "returns no error
when the versions are equal" does not hold for every call, only for
candidates that pass validation. -/
theorem c3_counterexample :
    smapNoPrimary.Version = stExP.cur.Version ∧
    (stExP.synchronize nodeP1 smapNoPrimary false none).1 = stExP ∧
    (stExP.synchronize nodeP1 smapNoPrimary false none).2.2.isSome = true := by
  decide

/-- C3 witness: the amended theorem applied to a concrete valid equal-version
candidate. -/
theorem c3_witness :
    (stEx0.synchronize nodeP1 smap3OK false none).1 = stEx0 ∧
    (stEx0.synchronize nodeP1 smap3OK false none).2.2 = none :=
  ⟨(c3_synchronize_nonnewer stEx0 nodeP1 smap3OK false none (by decide) (by decide)).1,
   (c3_synchronize_nonnewer stEx0 nodeP1 smap3OK false none (by decide) (by decide)).2.2 rfl⟩

/-
merge: version framing and commutativity (claims C10, C8).
-/

/-- Left-biased choice on optional nodes (Go's "present in dst wins"). -/
def optOr (a b : Option Snode) : Option Snode :=
  match a with
  | some v => some v
  | none => b

/-- Every node value held by a snapshot, either role. -/
def smapX.allNodes (m : smapX) : List Snode :=
  (m.Tmap ++ m.Pmap).map Prod.snd

/-- No two distinct node identities in `V` share a public URL/IP. -/
def noURLConflicts (V : List Snode) : Prop :=
  ∀ a ∈ V, ∀ b ∈ V, a.pubURL = b.pubURL → a.id = b.id

theorem NodeMap.findDup_none (l : NodeMap) (nsi : Snode)
    (h : ∀ e ∈ l, e.2.pubURL = nsi.pubURL → e.2.id = nsi.id) :
    NodeMap.findDup l nsi = none := by
  induction l with
  | nil => rfl
  | cons e0 rest ih =>
      obtain ⟨k0, v0⟩ := e0
      unfold NodeMap.findDup
      rw [if_neg]
      · exact ih fun e he => h e (List.mem_cons_of_mem _ he)
      · rintro ⟨hne, hurl⟩
        exact hne (h (k0, v0) (by simp) hurl)

theorem smapX.isDuplicate_none (m : smapX) (nsi : Snode)
    (h : ∀ b ∈ m.allNodes, b.pubURL = nsi.pubURL → b.id = nsi.id) :
    m.IsDuplicate nsi = none := by
  have ht : NodeMap.findDup m.Tmap nsi = none := by
    apply NodeMap.findDup_none
    intro e he hurl
    exact h e.2 (by simp [smapX.allNodes]; exact Or.inl ⟨e.1, he⟩) hurl
  have hp : NodeMap.findDup m.Pmap nsi = none := by
    apply NodeMap.findDup_none
    intro e he hurl
    exact h e.2 (by simp [smapX.allNodes]; exact Or.inr ⟨e.1, he⟩) hurl
  unfold smapX.IsDuplicate
  rw [ht, hp]

theorem smapX.handleDup_clean (m : smapX) (nsi : Snode) (ov : Bool)
    (h : ∀ b ∈ m.allNodes, b.pubURL = nsi.pubURL → b.id = nsi.id) :
    m.handleDuplicateNode nsi ov = (m, none) := by
  unfold smapX.handleDuplicateNode
  rw [smapX.isDuplicate_none m nsi h]

theorem smapX.handleDup_false_fst (m : smapX) (nsi : Snode) :
    (m.handleDuplicateNode nsi false).1 = m := by
  unfold smapX.handleDuplicateNode
  cases m.IsDuplicate nsi <;> simp

theorem mergeLoopT_false_frame (src : NodeMap) :
    ∀ (dst : smapX) (added : Nat),
      (mergeLoopT src dst false added).1.Version = dst.Version ∧
      (mergeLoopT src dst false added).1.Pmap = dst.Pmap ∧
      (mergeLoopT src dst false added).1.UUID = dst.UUID ∧
      (mergeLoopT src dst false added).1.CreationTime = dst.CreationTime := by
  induction src with
  | nil => intro dst added; exact ⟨rfl, rfl, rfl, rfl⟩
  | cons e rest ih =>
      intro dst added
      obtain ⟨id, si⟩ := e
      unfold mergeLoopT
      cases hd : dst.handleDuplicateNode si false with
      | mk dst2 err =>
          have hfst : dst2 = dst := by
            have := smapX.handleDup_false_fst dst si
            rw [hd] at this
            exact this
          subst hfst
          cases err with
          | some e2 => exact ⟨rfl, rfl, rfl, rfl⟩
          | none =>
              dsimp only
              split
              · exact ih _ _
              · exact ih _ _

theorem mergeLoopP_false_frame (src : NodeMap) :
    ∀ (dst : smapX) (added : Nat),
      (mergeLoopP src dst false added).1.Version = dst.Version ∧
      (mergeLoopP src dst false added).1.Tmap = dst.Tmap ∧
      (mergeLoopP src dst false added).1.UUID = dst.UUID ∧
      (mergeLoopP src dst false added).1.CreationTime = dst.CreationTime := by
  induction src with
  | nil => intro dst added; exact ⟨rfl, rfl, rfl, rfl⟩
  | cons e rest ih =>
      intro dst added
      obtain ⟨id, si⟩ := e
      unfold mergeLoopP
      cases hd : dst.handleDuplicateNode si false with
      | mk dst2 err =>
          have hfst : dst2 = dst := by
            have := smapX.handleDup_false_fst dst si
            rw [hd] at this
            exact this
          subst hfst
          cases err with
          | some e2 => exact ⟨rfl, rfl, rfl, rfl⟩
          | none =>
              dsimp only
              split
              · exact ih _ _
              · exact ih _ _

/-- With `override = false` the merge loops never touch the destination's
version. -/
theorem smapX.merge_false_version (m dst : smapX) :
    (m.merge dst false).1.Version = dst.Version := by
  unfold smapX.merge
  cases h1 : mergeLoopT m.Tmap dst false 0 with
  | mk dst2 rest1 =>
      obtain ⟨added2, err2⟩ := rest1
      have hf1 := mergeLoopT_false_frame m.Tmap dst 0
      rw [h1] at hf1
      cases err2 with
      | some e => exact hf1.1
      | none =>
          dsimp only
          cases h2 : mergeLoopP m.Pmap dst2 false added2 with
          | mk dst3 rest2 =>
              obtain ⟨added3, err3⟩ := rest2
              have hf2 := mergeLoopP_false_frame m.Pmap dst2 added2
              rw [h2] at hf2
              cases err3 with
              | some e => exact hf2.1.trans hf1.1
              | none =>
                  dsimp only
                  split <;> exact hf2.1.trans hf1.1

theorem smapX.mem_allNodes (m : smapX) (b : Snode) :
    b ∈ m.allNodes ↔ (∃ e ∈ m.Tmap, e.2 = b) ∨ (∃ e ∈ m.Pmap, e.2 = b) := by
  simp only [smapX.allNodes, List.mem_map, List.mem_append]
  constructor
  · rintro ⟨e, he | he, rfl⟩
    · exact Or.inl ⟨e, he, rfl⟩
    · exact Or.inr ⟨e, he, rfl⟩
  · rintro (⟨e, he, rfl⟩ | ⟨e, he, rfl⟩)
    · exact ⟨e, Or.inl he, rfl⟩
    · exact ⟨e, Or.inr he, rfl⟩

theorem mergeLoopT_clean (V : List Snode) (hV : noURLConflicts V) (src : NodeMap) :
    ∀ (dst : smapX) (ov : Bool) (added : Nat),
      (∀ e ∈ src, e.2 ∈ V) →
      (∀ b ∈ dst.allNodes, b ∈ V) →
      (mergeLoopT src dst ov added).2.2 = none ∧
      (mergeLoopT src dst ov added).1.Pmap = dst.Pmap ∧
      (mergeLoopT src dst ov added).1.Version = dst.Version ∧
      (mergeLoopT src dst ov added).1.UUID = dst.UUID ∧
      (mergeLoopT src dst ov added).1.CreationTime = dst.CreationTime ∧
      (mergeLoopT src dst ov added).1.Primary = dst.Primary ∧
      (∀ b ∈ (mergeLoopT src dst ov added).1.allNodes, b ∈ V) ∧
      (∀ k, NodeMap.get (mergeLoopT src dst ov added).1.Tmap k =
        optOr (NodeMap.get dst.Tmap k)
          (if (NodeMap.get dst.Pmap k).isSome = true then none else NodeMap.get src k)) := by
  induction src with
  | nil =>
      intro dst ov added _ hdst
      refine ⟨rfl, rfl, rfl, rfl, rfl, rfl, hdst, ?_⟩
      intro k
      cases hg : NodeMap.get dst.Tmap k <;> simp [mergeLoopT, optOr, hg, NodeMap.get]
  | cons e rest ih =>
      intro dst ov added hsrc hdst
      obtain ⟨id, si⟩ := e
      have hsi : si ∈ V := hsrc (id, si) (by simp)
      have hclean : dst.handleDuplicateNode si ov = (dst, none) := by
        apply smapX.handleDup_clean
        intro b hb hurl
        exact hV b (hdst b hb) si hsi hurl
      unfold mergeLoopT
      rw [hclean]
      dsimp only
      by_cases hc : (NodeMap.get dst.Tmap id).isNone = true ∧ (NodeMap.get dst.Pmap id).isNone = true
      · rw [if_pos hc]
        obtain ⟨hcT, hcP⟩ := hc
        rw [Option.isNone_iff_eq_none] at hcT hcP
        have hdst1 : ∀ b ∈ (smapX.allNodes
            { dst with Tmap := dst.Tmap.set id si }), b ∈ V := by
          intro b hb
          rw [smapX.mem_allNodes] at hb
          rcases hb with ⟨e2, he2, rfl⟩ | ⟨e2, he2, rfl⟩
          · rcases NodeMap.mem_set dst.Tmap id si e2 he2 with hm | hm
            · exact hdst e2.2 ((smapX.mem_allNodes dst e2.2).2 (Or.inl ⟨e2, hm, rfl⟩))
            · rw [hm]
              exact hsi
          · exact hdst e2.2 ((smapX.mem_allNodes dst e2.2).2 (Or.inr ⟨e2, he2, rfl⟩))
        obtain ⟨ih1, ih2, ih3, ih4, ih5, ih6, ih7, ih8⟩ :=
          ih { dst with Tmap := dst.Tmap.set id si } ov (added + 1)
            (fun e2 he2 => hsrc e2 (List.mem_cons_of_mem _ he2)) hdst1
        refine ⟨ih1, ih2, ih3, ih4, ih5, ih6, ih7, ?_⟩
        intro k
        rw [ih8 k]
        rw [show ({ dst with Tmap := dst.Tmap.set id si } : smapX).Tmap
            = dst.Tmap.set id si from rfl]
        rw [show ({ dst with Tmap := dst.Tmap.set id si } : smapX).Pmap
            = dst.Pmap from rfl]
        rw [NodeMap.get_set]
        by_cases hk : id = k
        · subst hk
          rw [hcT, hcP]
          simp [optOr, NodeMap.get]
        · rw [if_neg hk]
          rw [show NodeMap.get ((id, si) :: rest) k = NodeMap.get rest k from by
            simp [NodeMap.get, hk]]
      · rw [if_neg hc]
        obtain ⟨ih1, ih2, ih3, ih4, ih5, ih6, ih7, ih8⟩ :=
          ih dst ov added (fun e2 he2 => hsrc e2 (List.mem_cons_of_mem _ he2)) hdst
        refine ⟨ih1, ih2, ih3, ih4, ih5, ih6, ih7, ?_⟩
        intro k
        rw [ih8 k]
        by_cases hk : id = k
        · subst hk
          cases hT : NodeMap.get dst.Tmap id with
          | some v => rfl
          | none =>
              have hP : (NodeMap.get dst.Pmap id).isSome = true := by
                cases hg : NodeMap.get dst.Pmap id with
                | some v => rfl
                | none => exact absurd ⟨by simp [hT], by simp [hg]⟩ hc
              rw [hP]
              simp
        · rw [show NodeMap.get ((id, si) :: rest) k = NodeMap.get rest k from by
            simp [NodeMap.get, hk]]

theorem mergeLoopP_clean (V : List Snode) (hV : noURLConflicts V) (src : NodeMap) :
    ∀ (dst : smapX) (ov : Bool) (added : Nat),
      (∀ e ∈ src, e.2 ∈ V) →
      (∀ b ∈ dst.allNodes, b ∈ V) →
      (mergeLoopP src dst ov added).2.2 = none ∧
      (mergeLoopP src dst ov added).1.Tmap = dst.Tmap ∧
      (mergeLoopP src dst ov added).1.Version = dst.Version ∧
      (mergeLoopP src dst ov added).1.UUID = dst.UUID ∧
      (mergeLoopP src dst ov added).1.CreationTime = dst.CreationTime ∧
      (mergeLoopP src dst ov added).1.Primary = dst.Primary ∧
      (∀ b ∈ (mergeLoopP src dst ov added).1.allNodes, b ∈ V) ∧
      (∀ k, NodeMap.get (mergeLoopP src dst ov added).1.Pmap k =
        optOr (NodeMap.get dst.Pmap k)
          (if (NodeMap.get dst.Tmap k).isSome = true then none else NodeMap.get src k)) := by
  induction src with
  | nil =>
      intro dst ov added _ hdst
      refine ⟨rfl, rfl, rfl, rfl, rfl, rfl, hdst, ?_⟩
      intro k
      cases hg : NodeMap.get dst.Pmap k <;> simp [mergeLoopP, optOr, hg, NodeMap.get]
  | cons e rest ih =>
      intro dst ov added hsrc hdst
      obtain ⟨id, si⟩ := e
      have hsi : si ∈ V := hsrc (id, si) (by simp)
      have hclean : dst.handleDuplicateNode si ov = (dst, none) := by
        apply smapX.handleDup_clean
        intro b hb hurl
        exact hV b (hdst b hb) si hsi hurl
      unfold mergeLoopP
      rw [hclean]
      dsimp only
      by_cases hc : (NodeMap.get dst.Pmap id).isNone = true ∧ (NodeMap.get dst.Tmap id).isNone = true
      · rw [if_pos hc]
        obtain ⟨hcP, hcT⟩ := hc
        rw [Option.isNone_iff_eq_none] at hcT hcP
        have hdst1 : ∀ b ∈ (smapX.allNodes
            { dst with Pmap := dst.Pmap.set id si }), b ∈ V := by
          intro b hb
          rw [smapX.mem_allNodes] at hb
          rcases hb with ⟨e2, he2, rfl⟩ | ⟨e2, he2, rfl⟩
          · exact hdst e2.2 ((smapX.mem_allNodes dst e2.2).2 (Or.inl ⟨e2, he2, rfl⟩))
          · rcases NodeMap.mem_set dst.Pmap id si e2 he2 with hm | hm
            · exact hdst e2.2 ((smapX.mem_allNodes dst e2.2).2 (Or.inr ⟨e2, hm, rfl⟩))
            · rw [hm]
              exact hsi
        obtain ⟨ih1, ih2, ih3, ih4, ih5, ih6, ih7, ih8⟩ :=
          ih { dst with Pmap := dst.Pmap.set id si } ov (added + 1)
            (fun e2 he2 => hsrc e2 (List.mem_cons_of_mem _ he2)) hdst1
        refine ⟨ih1, ih2, ih3, ih4, ih5, ih6, ih7, ?_⟩
        intro k
        rw [ih8 k]
        rw [show ({ dst with Pmap := dst.Pmap.set id si } : smapX).Pmap
            = dst.Pmap.set id si from rfl]
        rw [show ({ dst with Pmap := dst.Pmap.set id si } : smapX).Tmap
            = dst.Tmap from rfl]
        rw [NodeMap.get_set]
        by_cases hk : id = k
        · subst hk
          rw [hcT, hcP]
          simp [optOr, NodeMap.get]
        · rw [if_neg hk]
          rw [show NodeMap.get ((id, si) :: rest) k = NodeMap.get rest k from by
            simp [NodeMap.get, hk]]
      · rw [if_neg hc]
        obtain ⟨ih1, ih2, ih3, ih4, ih5, ih6, ih7, ih8⟩ :=
          ih dst ov added (fun e2 he2 => hsrc e2 (List.mem_cons_of_mem _ he2)) hdst
        refine ⟨ih1, ih2, ih3, ih4, ih5, ih6, ih7, ?_⟩
        intro k
        rw [ih8 k]
        by_cases hk : id = k
        · subst hk
          cases hP : NodeMap.get dst.Pmap id with
          | some v => rfl
          | none =>
              have hT : (NodeMap.get dst.Tmap id).isSome = true := by
                cases hg : NodeMap.get dst.Tmap id with
                | some v => rfl
                | none => exact absurd ⟨by simp [hP], by simp [hg]⟩ hc
              rw [hT]
              simp
        · rw [show NodeMap.get ((id, si) :: rest) k = NodeMap.get rest k from by
            simp [NodeMap.get, hk]]

theorem smapX.merge_clean (V : List Snode) (hV : noURLConflicts V) (m dst : smapX)
    (ov : Bool) (hm : ∀ b ∈ m.allNodes, b ∈ V) (hd : ∀ b ∈ dst.allNodes, b ∈ V) :
    (m.merge dst ov).2.2 = none ∧
    (m.merge dst ov).1.Version = dst.Version ∧
    (∀ k, NodeMap.get (m.merge dst ov).1.Tmap k =
      optOr (NodeMap.get dst.Tmap k)
        (if (NodeMap.get dst.Pmap k).isSome = true then none else NodeMap.get m.Tmap k)) ∧
    (∀ k, NodeMap.get (m.merge dst ov).1.Pmap k =
      optOr (NodeMap.get dst.Pmap k)
        (if (optOr (NodeMap.get dst.Tmap k)
              (if (NodeMap.get dst.Pmap k).isSome = true then none
               else NodeMap.get m.Tmap k)).isSome = true then none
         else NodeMap.get m.Pmap k)) := by
  have hmT : ∀ e ∈ m.Tmap, e.2 ∈ V := by
    intro e he
    exact hm e.2 ((smapX.mem_allNodes m e.2).2 (Or.inl ⟨e, he, rfl⟩))
  have hmP : ∀ e ∈ m.Pmap, e.2 ∈ V := by
    intro e he
    exact hm e.2 ((smapX.mem_allNodes m e.2).2 (Or.inr ⟨e, he, rfl⟩))
  unfold smapX.merge
  cases h1 : mergeLoopT m.Tmap dst ov 0 with
  | mk dst2 rest1 =>
      obtain ⟨added2, err2⟩ := rest1
      have hc1 := mergeLoopT_clean V hV m.Tmap dst ov 0 hmT hd
      rw [h1] at hc1
      obtain ⟨he2, hP2, hV2, _, _, _, hall2, hget2⟩ := hc1
      dsimp only at he2 hP2 hV2 hall2 hget2
      subst he2
      dsimp only
      cases h2 : mergeLoopP m.Pmap dst2 ov added2 with
      | mk dst3 rest2 =>
          obtain ⟨added3, err3⟩ := rest2
          have hc2 := mergeLoopP_clean V hV m.Pmap dst2 ov added2 hmP hall2
          rw [h2] at hc2
          obtain ⟨he3, hT3, hV3, _, _, _, _, hget3⟩ := hc2
          dsimp only at he3 hT3 hV3 hget3
          subst he3
          dsimp only
          have hmaps : ∀ dst4 : smapX, dst4.Tmap = dst3.Tmap → dst4.Pmap = dst3.Pmap →
              dst4.Version = dst3.Version →
              ((∀ k, NodeMap.get dst4.Tmap k =
                optOr (NodeMap.get dst.Tmap k)
                  (if (NodeMap.get dst.Pmap k).isSome = true then none
                   else NodeMap.get m.Tmap k)) ∧
               (∀ k, NodeMap.get dst4.Pmap k =
                optOr (NodeMap.get dst.Pmap k)
                  (if (optOr (NodeMap.get dst.Tmap k)
                        (if (NodeMap.get dst.Pmap k).isSome = true then none
                         else NodeMap.get m.Tmap k)).isSome = true then none
                   else NodeMap.get m.Pmap k)) ∧ dst4.Version = dst.Version) := by
            intro dst4 h4T h4P h4V
            refine ⟨?_, ?_, by rw [h4V, hV3, hV2]⟩
            · intro k
              rw [h4T, hT3, hget2 k]
            · intro k
              rw [h4P, hget3 k, hP2, hget2 k]
          split
          · next hcond =>
              have h := hmaps _ rfl rfl rfl
              exact ⟨rfl, h.2.2, h.1, h.2.1⟩
          · next hcond =>
              have h := hmaps dst3 rfl rfl rfl
              exact ⟨rfl, h.2.2, h.1, h.2.1⟩

/-- C10: a `merge` call that evicts no conflicting node from the destination
— every call with `override = false`, and every call whose snapshots have no
duplicate-URL/IP conflicts — leaves the destination's version exactly as it
was, even when nodes were added. -/
theorem c10_merge_preserves_version (m dst : smapX) (override : Bool)
    (h : override = false ∨ noURLConflicts (m.allNodes ++ dst.allNodes)) :
    (m.merge dst override).1.Version = dst.Version := by
  rcases h with h | h
  · subst h
    exact smapX.merge_false_version m dst
  · exact (smapX.merge_clean (m.allNodes ++ dst.allNodes) h m dst override
      (fun b hb => List.mem_append.2 (Or.inl hb))
      (fun b hb => List.mem_append.2 (Or.inr hb))).2.1

/-- Target node of the example snapshot `smapA`. -/
def nodeTA : Snode := ⟨"t1", Role.target, ⟨false, false, false, false⟩, "uta"⟩

/-- Proxy (and primary) node of the example snapshot `smapA`. -/
def nodePA : Snode := ⟨"pa", Role.proxy, ⟨false, false, false, false⟩, "upa"⟩

/-- Target node of the example snapshot `smapB`. -/
def nodeTB : Snode := ⟨"t2", Role.target, ⟨false, false, false, false⟩, "utb"⟩

/-- Proxy (and primary) node of the example snapshot `smapB`. -/
def nodePB : Snode := ⟨"pb", Role.proxy, ⟨false, false, false, false⟩, "upb"⟩

/-- Example snapshot with one target and one proxy, id-disjoint from
`smapB`. -/
def smapA : smapX := ⟨[("t1", nodeTA)], [("pa", nodePA)], some nodePA, 3, "ua", "", "3"⟩

/-- Example snapshot with one target and one proxy, id-disjoint from
`smapA`. -/
def smapB : smapX := ⟨[("t2", nodeTB)], [("pb", nodePB)], some nodePB, 5, "ub", "", "5"⟩

/-- C10 witness: the version-framing theorem applied to a concrete merge that
carries two nodes over. -/
theorem c10_witness : (smapA.merge smapB false).1.Version = smapB.Version :=
  c10_merge_preserves_version smapA smapB false (Or.inl rfl)

/-- C8: merging two snapshots with disjoint node-id sets (and within-snapshot
role-disjoint ids) and no duplicate-URL/IP conflicts succeeds in both orders
and produces the same member map in both directions. -/
theorem c8_merge_commutative (A B : smapX)
    (hV : noURLConflicts (A.allNodes ++ B.allNodes))
    (hA : ∀ e ∈ A.Tmap, NodeMap.get A.Pmap e.1 = none)
    (hB : ∀ e ∈ B.Tmap, NodeMap.get B.Pmap e.1 = none)
    (hAB : ∀ e ∈ A.Tmap ++ A.Pmap,
      NodeMap.get B.Tmap e.1 = none ∧ NodeMap.get B.Pmap e.1 = none) :
    (A.merge B false).2.2 = none ∧ (B.merge A false).2.2 = none ∧
    ∀ k, NodeMap.get (A.merge B false).1.Tmap k = NodeMap.get (B.merge A false).1.Tmap k ∧
         NodeMap.get (A.merge B false).1.Pmap k = NodeMap.get (B.merge A false).1.Pmap k := by
  have hV2 : noURLConflicts (B.allNodes ++ A.allNodes) := by
    intro a ha b hb hurl
    exact hV a (by rcases List.mem_append.1 ha with h | h <;> simp [List.mem_append, h])
      b (by rcases List.mem_append.1 hb with h | h <;> simp [List.mem_append, h]) hurl
  have hc1 := smapX.merge_clean (A.allNodes ++ B.allNodes) hV A B false
    (fun b hb => List.mem_append.2 (Or.inl hb))
    (fun b hb => List.mem_append.2 (Or.inr hb))
  have hc2 := smapX.merge_clean (B.allNodes ++ A.allNodes) hV2 B A false
    (fun b hb => List.mem_append.2 (Or.inl hb))
    (fun b hb => List.mem_append.2 (Or.inr hb))
  refine ⟨hc1.1, hc2.1, ?_⟩
  intro k
  rw [hc1.2.2.1 k, hc2.2.2.1 k, hc1.2.2.2 k, hc2.2.2.2 k]
  have dA : ∀ v, NodeMap.get A.Tmap k = some v → NodeMap.get A.Pmap k = none := by
    intro v hv
    exact hA (k, v) (NodeMap.get_some_mem _ _ _ hv)
  have dB : ∀ v, NodeMap.get B.Tmap k = some v → NodeMap.get B.Pmap k = none := by
    intro v hv
    exact hB (k, v) (NodeMap.get_some_mem _ _ _ hv)
  have dABT : ∀ v, NodeMap.get A.Tmap k = some v →
      NodeMap.get B.Tmap k = none ∧ NodeMap.get B.Pmap k = none := by
    intro v hv
    exact hAB (k, v) (List.mem_append.2 (Or.inl (NodeMap.get_some_mem _ _ _ hv)))
  have dABP : ∀ v, NodeMap.get A.Pmap k = some v →
      NodeMap.get B.Tmap k = none ∧ NodeMap.get B.Pmap k = none := by
    intro v hv
    exact hAB (k, v) (List.mem_append.2 (Or.inr (NodeMap.get_some_mem _ _ _ hv)))
  cases hat : NodeMap.get A.Tmap k with
  | some v =>
      have h1 := dA v hat
      have h2 := dABT v hat
      simp [optOr, h1, h2.1, h2.2]
  | none =>
      cases hap : NodeMap.get A.Pmap k with
      | some v =>
          have h2 := dABP v hap
          simp [optOr, h2.1, h2.2]
      | none =>
          cases hbt : NodeMap.get B.Tmap k with
          | some v =>
              have h1 := dB v hbt
              simp [optOr, h1]
          | none =>
              cases hbp : NodeMap.get B.Pmap k with
              | some v => simp [optOr]
              | none => simp [optOr]

/-- Key of the target carried between `smapA` and `smapB`. -/
def idT1 : String := "t1"

/-- C8 witness: the commutativity theorem applied to two concrete disjoint
conflict-free snapshots, read back at the key `t1`. -/
theorem c8_witness :
    (smapA.merge smapB false).2.2 = none ∧ (smapB.merge smapA false).2.2 = none ∧
    NodeMap.get (smapA.merge smapB false).1.Tmap idT1 =
      NodeMap.get (smapB.merge smapA false).1.Tmap idT1 := by
  have h := c8_merge_commutative smapA smapB (by unfold noURLConflicts; decide) (by decide)
    (by decide) (by decide)
  exact ⟨h.1, h.2.1, (h.2.2 idT1).1⟩

/-
clone: structural independence of the deep copy (claim C6).
-/

theorem RefMap.refGet_some_mem (l : RefMap) (k : String) (r : Nat)
    (h : RefMap.get l k = some r) : (k, r) ∈ l := by
  induction l with
  | nil => simp [RefMap.get] at h
  | cons e0 rest ih =>
      obtain ⟨k0, r0⟩ := e0
      by_cases h0 : k0 = k
      · subst h0
        simp [RefMap.get] at h
        subst h
        simp
      · simp [RefMap.get, h0] at h
        exact List.mem_cons_of_mem _ (ih h)

theorem Heap.applyWrites_read_frame (ws : List (Nat × Snode)) :
    ∀ (h : Heap) (r : Nat), (∀ w ∈ ws, r ≠ w.1) →
      (h.applyWrites ws).read r = h.read r := by
  induction ws with
  | nil => intro h r _; rfl
  | cons w rest ih =>
      intro h r hr
      obtain ⟨rw, vw⟩ := w
      have h1 : (h.write rw vw).read r = h.read r := by
        unfold Heap.write Heap.read
        dsimp only
        rw [if_neg (hr (rw, vw) (by simp))]
      calc (h.applyWrites ((rw, vw) :: rest)).read r
      _ = ((h.write rw vw).applyWrites rest).read r := rfl
      _ = (h.write rw vw).read r := ih _ r (fun w hw => hr w (List.mem_cons_of_mem _ hw))
      _ = h.read r := h1

theorem cloneMapR_spec (l : RefMap) :
    ∀ (h : Heap), (∀ e ∈ l, e.2 < h.next) →
      (cloneMapR l h).2.next = h.next + l.length ∧
      (∀ r, r < h.next → (cloneMapR l h).2.store r = h.store r) ∧
      (∀ e ∈ (cloneMapR l h).1, h.next ≤ e.2 ∧ e.2 < (cloneMapR l h).2.next) ∧
      List.Forall₂ (fun a b => b.1 = a.1 ∧ (cloneMapR l h).2.store b.2 = h.store a.2)
        l (cloneMapR l h).1 := by
  induction l with
  | nil =>
      intro h _
      exact ⟨by simp [cloneMapR], fun r _ => rfl, by simp [cloneMapR], by simp [cloneMapR]⟩
  | cons e rest ih =>
      intro h hwf
      obtain ⟨id, r0⟩ := e
      have hr0 : r0 < h.next := hwf (id, r0) (by simp)
      have hl : cloneMapR ((id, r0) :: rest) h =
          ((id, h.next) :: (cloneMapR rest (h.alloc (h.read r0)).2).1,
            (cloneMapR rest (h.alloc (h.read r0)).2).2) := rfl
      set h1 := (h.alloc (h.read r0)).2 with hh1
      have hn1 : h1.next = h.next + 1 := rfl
      have hs1 : ∀ r, r < h.next → h1.store r = h.store r := by
        intro r hr
        show (if r = h.next then h.read r0 else h.store r) = h.store r
        rw [if_neg (by omega)]
      have hs1top : h1.store h.next = h.read r0 := by
        show (if h.next = h.next then h.read r0 else h.store h.next) = h.read r0
        rw [if_pos rfl]
      have hwf1 : ∀ e ∈ rest, e.2 < h1.next := by
        intro e he
        have := hwf e (List.mem_cons_of_mem _ he)
        omega
      obtain ⟨ihn, ihs, ihf, ihrel⟩ := ih h1 hwf1
      rw [hl]
      dsimp only
      refine ⟨by rw [ihn, hn1]; simp; omega, ?_, ?_, ?_⟩
      · intro r hr
        rw [ihs r (by omega), hs1 r hr]
      · intro e he
        rcases List.mem_cons.1 he with he | he
        · rw [he]
          constructor
          · exact le_refl _
          · rw [ihn]; omega
        · obtain ⟨hf1, hf2⟩ := ihf e he
          exact ⟨by omega, hf2⟩
      · constructor
        · refine ⟨rfl, ?_⟩
          rw [ihs h.next (by omega), hs1top]
          rfl
        · have hcast : ∀ (xs ys : RefMap),
              List.Forall₂ (fun a b => b.1 = a.1 ∧
                (cloneMapR rest h1).2.store b.2 = h1.store a.2) xs ys →
              (∀ a ∈ xs, a.2 < h.next) →
              List.Forall₂ (fun a b => b.1 = a.1 ∧
                (cloneMapR rest h1).2.store b.2 = h.store a.2) xs ys := by
            intro xs
            induction xs with
            | nil =>
                intro ys hrel _
                cases hrel
                exact List.Forall₂.nil
            | cons x xs2 ihx =>
                intro ys hrel hb
                cases hrel with
                | cons hxy htail =>
                    exact List.Forall₂.cons
                      ⟨hxy.1, by rw [hxy.2, hs1 x.2 (hb x (by simp))]⟩
                      (ihx _ htail (fun a ha => hb a (List.mem_cons_of_mem _ ha)))
          exact hcast rest _ ihrel (fun a ha => hwf a (List.mem_cons_of_mem _ ha))

theorem forall2_store_congr (S f g : Nat → Snode) :
    ∀ (xs ys : RefMap),
      List.Forall₂ (fun a b => b.1 = a.1 ∧ S b.2 = f a.2) xs ys →
      (∀ a ∈ xs, f a.2 = g a.2) →
      List.Forall₂ (fun a b => b.1 = a.1 ∧ S b.2 = g a.2) xs ys := by
  intro xs
  induction xs with
  | nil =>
      intro ys hrel _
      cases hrel
      exact List.Forall₂.nil
  | cons x xs2 ihx =>
      intro ys hrel hb
      cases hrel with
      | cons hxy htail =>
          exact List.Forall₂.cons ⟨hxy.1, by rw [hxy.2, hb x (by simp)]⟩
            (ihx _ htail (fun a ha => hb a (List.mem_cons_of_mem _ ha)))

theorem forall2_store_congr2 (S1 S2 g : Nat → Snode) :
    ∀ (xs ys : RefMap),
      List.Forall₂ (fun a b => b.1 = a.1 ∧ S1 b.2 = g a.2) xs ys →
      (∀ b ∈ ys, S1 b.2 = S2 b.2) →
      List.Forall₂ (fun a b => b.1 = a.1 ∧ S2 b.2 = g a.2) xs ys := by
  intro xs
  induction xs with
  | nil =>
      intro ys hrel _
      cases hrel
      exact List.Forall₂.nil
  | cons x xs2 ihx =>
      intro ys hrel hb
      cases hrel with
      | cons hxy htail =>
          rename_i y ys2
          exact List.Forall₂.cons ⟨hxy.1, by rw [← hb y (by simp), hxy.2]⟩
            (ihx _ htail (fun b hbm => hb b (List.mem_cons_of_mem _ hbm)))

/-- C6: `clone()` yields a deep copy — same keys in order, node values read
back equal through fresh references — carrying the same cached version
string, and any sequence of in-place node mutations through the clone's
references leaves every node readable from the original snapshot unchanged. -/
theorem c6_clone_structural_independence (m : smapR) (h : Heap)
    (hwf : ∀ r ∈ m.refs, r < h.next) :
    (m.clone h).1.vstr = m.vstr ∧
    List.Forall₂ (fun a b => b.1 = a.1 ∧ (m.clone h).2.store b.2 = h.store a.2)
      m.Tmap (m.clone h).1.Tmap ∧
    List.Forall₂ (fun a b => b.1 = a.1 ∧ (m.clone h).2.store b.2 = h.store a.2)
      m.Pmap (m.clone h).1.Pmap ∧
    (∀ ws : List (Nat × Snode), (∀ w ∈ ws, w.1 ∈ (m.clone h).1.refs) →
      ∀ r ∈ m.refs, ((m.clone h).2.applyWrites ws).read r = h.read r) := by
  have hwfT : ∀ e ∈ m.Tmap, e.2 < h.next := by
    intro e he
    exact hwf e.2 (by
      simp only [smapR.refs, List.mem_append]
      exact Or.inl (Or.inl (List.mem_map_of_mem Prod.snd he)))
  have hwfP : ∀ e ∈ m.Pmap, e.2 < h.next := by
    intro e he
    exact hwf e.2 (by
      simp only [smapR.refs, List.mem_append]
      exact Or.inl (Or.inr (List.mem_map_of_mem Prod.snd he)))
  obtain ⟨hTn, hTs, hTf, hTrel⟩ := cloneMapR_spec m.Tmap h hwfT
  have hn1 : h.next ≤ (cloneMapR m.Tmap h).2.next := by rw [hTn]; omega
  have hwfP1 : ∀ e ∈ m.Pmap, e.2 < (cloneMapR m.Tmap h).2.next := by
    intro e he
    have := hwfP e he
    omega
  obtain ⟨hPn, hPs, hPf, hPrel⟩ := cloneMapR_spec m.Pmap (cloneMapR m.Tmap h).2 hwfP1
  have hclone1 : (m.clone h).1.Tmap = (cloneMapR m.Tmap h).1 := rfl
  have hclone2 : (m.clone h).1.Pmap = (cloneMapR m.Pmap (cloneMapR m.Tmap h).2).1 := rfl
  have hclone3 : (m.clone h).2 = (cloneMapR m.Pmap (cloneMapR m.Tmap h).2).2 := rfl
  -- reads below the original allocation frontier survive both copy loops
  have hsBoth : ∀ r, r < h.next →
      (m.clone h).2.store r = h.store r := by
    intro r hr
    rw [hclone3, hPs r (by omega), hTs r hr]
  -- every reference reachable from the clone is fresh
  have hfreshC : ∀ rc ∈ (m.clone h).1.refs, h.next ≤ rc := by
    intro rc hrc
    simp only [smapR.refs, List.mem_append] at hrc
    rcases hrc with (hrc | hrc) | hrc
    · rw [hclone1] at hrc
      obtain ⟨e, he, rfl⟩ := List.mem_map.1 hrc
      exact (hTf e he).1
    · rw [hclone2] at hrc
      obtain ⟨e, he, rfl⟩ := List.mem_map.1 hrc
      have := (hPf e he).1
      omega
    · cases hpr : (m.clone h).1.Primary with
      | none =>
          rw [hpr] at hrc
          simp at hrc
      | some rp =>
          rw [hpr] at hrc
          simp at hrc
          subst hrc
          have hprc : (m.clone h).1.Primary =
              (match m.Primary with
               | some pr => RefMap.get (cloneMapR m.Pmap (cloneMapR m.Tmap h).2).1
                   ((h.read pr).id)
               | none => none) := rfl
          rw [hpr] at hprc
          cases hmp : m.Primary with
          | none =>
              rw [hmp] at hprc
              cases hprc
          | some pr =>
              rw [hmp] at hprc
              have hmem := RefMap.refGet_some_mem _ _ _ hprc.symm
              have hge := (hPf _ hmem).1
              omega
  refine ⟨rfl, ?_, ?_, ?_⟩
  · rw [hclone1]
    refine forall2_store_congr2 (cloneMapR m.Tmap h).2.store (m.clone h).2.store
      h.store m.Tmap (cloneMapR m.Tmap h).1 hTrel ?_
    intro b hb
    rw [hclone3, hPs b.2 (hTf b hb).2]
  · rw [hclone2]
    have hmid := forall2_store_congr
      (cloneMapR m.Pmap (cloneMapR m.Tmap h).2).2.store
      (cloneMapR m.Tmap h).2.store h.store m.Pmap
      (cloneMapR m.Pmap (cloneMapR m.Tmap h).2).1 hPrel
      (fun a ha => hTs a.2 (hwfP a ha))
    rw [hclone3]
    exact hmid
  · intro ws hws r hr
    have hrlt : r < h.next := hwf r hr
    have hne : ∀ w ∈ ws, r ≠ w.1 := by
      intro w hw
      have := hfreshC w.1 (hws w hw)
      omega
    rw [Heap.applyWrites_read_frame ws ((m.clone h).2) r hne]
    show (m.clone h).2.store r = h.store r
    exact hsBoth r hrlt

/-
staffIC: idempotence (claim C7).
-/

theorem BitFlags.IsSet_SnodeIC (f : BitFlags) : f.IsSet SnodeIC = f.ic := by
  cases f
  simp [BitFlags.IsSet, SnodeIC]

theorem BitFlags.SnodeIC_not_maint : SnodeIC.IsAnySet NodeFlagsMaintDecomm = false := rfl

theorem BitFlags.set_ic_ic (f : BitFlags) : (f.Set SnodeIC).ic = true := by
  cases f
  simp [BitFlags.Set, SnodeIC]

theorem NodeMap.get_self_of_nodup (l : NodeMap) (hnd : (NodeMap.keys l).Nodup) :
    ∀ e ∈ l, NodeMap.get l e.1 = some e.2 := by
  induction l with
  | nil => simp
  | cons e0 rest ih =>
      obtain ⟨k0, v0⟩ := e0
      simp only [NodeMap.keys, List.map_cons, List.nodup_cons] at hnd
      obtain ⟨hk0, hnd2⟩ := hnd
      intro e he
      rcases List.mem_cons.1 he with he | he
      · subst he
        simp [NodeMap.get]
      · have hne : k0 ≠ e.1 := by
          intro hc
          apply hk0
          rw [hc]
          exact List.mem_map_of_mem Prod.fst he
        rw [show NodeMap.get ((k0, v0) :: rest) e.1 = NodeMap.get rest e.1 from by
          simp [NodeMap.get, hne]]
        exact ih hnd2 e he

theorem NodeMap.mem_set_nodup (l : NodeMap) (k : String) (v : Snode)
    (hnd : (NodeMap.keys l).Nodup) (e : String × Snode) :
    e ∈ NodeMap.set l k v ↔ (e ∈ l ∧ e.1 ≠ k) ∨ e = (k, v) := by
  induction l with
  | nil =>
      simp [NodeMap.set]
  | cons e0 rest ih =>
      obtain ⟨k0, v0⟩ := e0
      simp only [NodeMap.keys, List.map_cons, List.nodup_cons] at hnd
      obtain ⟨hk0, hnd2⟩ := hnd
      by_cases h0 : k0 = k
      · subst h0
        rw [show NodeMap.set ((k0, v0) :: rest) k0 v = (k0, v) :: rest from by
          simp [NodeMap.set]]
        constructor
        · intro he
          rcases List.mem_cons.1 he with he | he
          · right; exact he
          · left
            refine ⟨List.mem_cons_of_mem _ he, ?_⟩
            intro hc
            apply hk0
            rw [← hc]
            exact List.mem_map_of_mem Prod.fst he
        · rintro (⟨he, hne⟩ | he)
          · rcases List.mem_cons.1 he with he | he
            · exact absurd (by rw [he]) hne
            · exact List.mem_cons_of_mem _ he
          · rw [he]; simp
      · rw [show NodeMap.set ((k0, v0) :: rest) k v = (k0, v0) :: NodeMap.set rest k v from by
          simp [NodeMap.set, h0]]
        constructor
        · intro he
          rcases List.mem_cons.1 he with he | he
          · left
            exact ⟨by rw [he]; simp, by rw [he]; exact fun hc => h0 (by simpa using hc)⟩
          · rcases (ih hnd2).1 he with ⟨he2, hne⟩ | he2
            · exact Or.inl ⟨List.mem_cons_of_mem _ he2, hne⟩
            · exact Or.inr he2
        · rintro (⟨he, hne⟩ | he)
          · rcases List.mem_cons.1 he with he | he
            · rw [he]; simp
            · exact List.mem_cons_of_mem _ ((ih hnd2).2 (Or.inl ⟨he, hne⟩))
          · exact List.mem_cons_of_mem _ ((ih hnd2).2 (Or.inr he))

theorem smapX.eta_primary (m : smapX) (x : Option Snode) (h : m.Primary = x) :
    { m with Primary := x } = m := by
  cases m
  subst h
  rfl

/-- An entry that `_fillIC` will pass over: non-electable or already IC. -/
def coveredEntry (e : String × Snode) : Prop :=
  e.2.flags.nonElectable = true ∨ e.2.flags.ic = true

instance (e : String × Snode) : Decidable (coveredEntry e) := by
  unfold coveredEntry
  infer_instance

/-- Well-formedness of the proxy map maintained by the Go code: no duplicate
keys, entries keyed by their node's id with proxy role, and key-disjoint from
the target map. -/
def smapX.PmapWF (m : smapX) : Prop :=
  (NodeMap.keys m.Pmap).Nodup ∧
  (∀ e ∈ m.Pmap, e.2.id = e.1 ∧ e.2.role = Role.proxy) ∧
  (∀ k ∈ NodeMap.keys m.Pmap, NodeMap.get m.Tmap k = none)

instance (m : smapX) : Decidable (m.PmapWF) := by
  unfold smapX.PmapWF
  infer_instance

/-- The post-state of a completed `staffIC`: primary resolved to its own
(IC-flagged) proxy entry, IC within bound, and nothing left for `_fillIC` to
do. -/
def smapX.Stable (m : smapX) : Prop :=
  ∃ p, m.Primary = some p ∧ NodeMap.get m.Pmap p.id = some p ∧
    NodeMap.get m.Tmap p.id = none ∧ p.flags.ic = true ∧
    m.ICCount ≤ DefaultICSize ∧
    (DefaultICSize ≤ m.ICCount ∨ ∀ e ∈ m.Pmap, coveredEntry e)

theorem BitFlags.IsSet_SnodeNonElectable (f : BitFlags) :
    f.IsSet SnodeNonElectable = f.nonElectable := by
  cases f
  simp [BitFlags.IsSet, SnodeNonElectable]

theorem smapX.fillICLoop_covered (m : smapX) (l : List (String × Snode))
    (hcov : ∀ e ∈ l, coveredEntry e) : m.fillICLoop l = m := by
  induction l with
  | nil => rfl
  | cons e rest ih =>
      obtain ⟨k0, si⟩ := e
      have hcov0 := hcov (k0, si) (by simp)
      have ihr := ih (fun e he => hcov e (List.mem_cons_of_mem _ he))
      unfold smapX.fillICLoop
      by_cases hne : si.flags.IsSet SnodeNonElectable = true
      · rw [if_pos hne]
        exact ihr
      · have hic : si.flags.ic = true := by
          rcases hcov0 with h | h
          · exact absurd (by rw [BitFlags.IsSet_SnodeNonElectable]; exact h) hne
          · exact h
        have haddic : m.addIC si = m := by
          unfold smapX.addIC
          rw [if_pos (show m.IsIC si = true from by
            simp [smapX.IsIC, BitFlags.IsSet_SnodeIC, hic])]
        rw [if_neg hne]
        dsimp only
        rw [haddic]
        split
        · rfl
        · exact ihr

theorem smapX.fillIC_id (m : smapX)
    (h : DefaultICSize ≤ m.ICCount ∨ ∀ e ∈ m.Pmap, coveredEntry e) :
    m._fillIC = m := by
  unfold smapX._fillIC
  by_cases hge : m.ICCount ≥ DefaultICSize
  · rw [if_pos hge]
  · rw [if_neg hge]
    rcases h with h | h
    · exact absurd h hge
    · exact smapX.fillICLoop_covered m m.Pmap h

theorem smapX.evictIC_id (m : smapX) (h : m.ICCount ≤ DefaultICSize) :
    m.evictIC = m := by
  unfold smapX.evictIC
  rw [if_pos h]

/-- A stable snapshot is a fixed point of `staffIC`. -/
theorem smapX.staffIC_stable (m : smapX) (hst : m.Stable) : m.staffIC = m := by
  obtain ⟨p, hp, hpm, hpt, hic, hcnt, hdich⟩ := hst
  unfold smapX.staffIC
  rw [hp]
  dsimp only
  have haddic : m.addIC p = m := by
    unfold smapX.addIC
    rw [if_pos (show m.IsIC p = true from by
      simp [smapX.IsIC, BitFlags.IsSet_SnodeIC, hic])]
  rw [haddic]
  have hpid : m.primaryID = p.id := by
    unfold smapX.primaryID
    rw [hp]
  rw [hpid]
  have hgn : m.GetNode p.id = some p := by
    unfold smapX.GetNode smapX.GetTarget smapX.GetProxy
    rw [hpt]
    exact hpm
  rw [hgn, smapX.eta_primary m (some p) hp, smapX.fillIC_id m hdich,
    smapX.evictIC_id m hcnt]

theorem NodeMap.mem_eq_of_get (l : NodeMap) (hnd : (NodeMap.keys l).Nodup)
    (k : String) (v : Snode) (hget : NodeMap.get l k = some v)
    (e : String × Snode) (he : e ∈ l) (hk : e.1 = k) : e = (k, v) := by
  obtain ⟨e1, e2⟩ := e
  dsimp only at hk
  subst hk
  have h1 := NodeMap.get_self_of_nodup l hnd (e1, e2) he
  dsimp only at h1
  rw [hget] at h1
  injection h1 with h1
  rw [h1]

theorem smapX.addIC_step (m : smapX) (k0 : String) (si : Snode)
    (hwf : m.PmapWF) (hget : NodeMap.get m.Pmap k0 = some si)
    (hic : si.flags.ic = false) :
    m.addIC si =
      { m with Pmap := m.Pmap.set k0 { si with flags := si.flags.Set SnodeIC },
               Version := m.Version + 1 } := by
  obtain ⟨hnd, hco, hdisj⟩ := hwf
  have hmem := NodeMap.get_some_mem m.Pmap k0 si hget
  obtain ⟨hsid, hsrole⟩ := hco (k0, si) hmem
  dsimp only at hsid hsrole
  have hkeys : k0 ∈ NodeMap.keys m.Pmap := NodeMap.get_some_mem_keys m.Pmap k0 si hget
  unfold smapX.addIC
  rw [if_neg (show ¬ m.IsIC si = true from by
    simp [smapX.IsIC, BitFlags.IsSet_SnodeIC, hic])]
  unfold smapX.setNodeFlags
  have hgn : m.GetNode si.id = some si := by
    unfold smapX.GetNode smapX.GetTarget smapX.GetProxy
    rw [hsid, hdisj k0 hkeys]
    exact hget
  rw [hgn]
  dsimp only
  rw [if_neg (show ¬ SnodeIC.IsAnySet NodeFlagsMaintDecomm = true from by
    rw [BitFlags.SnodeIC_not_maint]; simp)]
  unfold smapX._applyFlags
  dsimp only
  rw [if_neg (show ¬ Snode.IsTarget { si with flags := si.flags.Set SnodeIC } = true from by
    simp [Snode.IsTarget, hsrole])]
  rw [show ({ si with flags := si.flags.Set SnodeIC } : Snode).id = si.id from rfl, hsid]

theorem smapX.fillICLoop_invar (l : List (String × Snode)) :
    ∀ m : smapX, m.PmapWF →
      (∀ e ∈ l, NodeMap.get m.Pmap e.1 = some e.2) →
      (l.map Prod.fst).Nodup →
      (∀ e ∈ m.Pmap, e.1 ∉ l.map Prod.fst → coveredEntry e) →
      (m.fillICLoop l).Tmap = m.Tmap ∧
      (m.fillICLoop l).Primary = m.Primary ∧
      (m.fillICLoop l).PmapWF ∧
      (∀ k v, NodeMap.get m.Pmap k = some v → v.flags.ic = true →
        NodeMap.get (m.fillICLoop l).Pmap k = some v) ∧
      (DefaultICSize ≤ (m.fillICLoop l).ICCount ∨
        ∀ e ∈ (m.fillICLoop l).Pmap, coveredEntry e) := by
  induction l with
  | nil =>
      intro m hwf _ _ hcov
      exact ⟨rfl, rfl, hwf, fun k v h _ => h,
        Or.inr (fun e he => hcov e he (by simp))⟩
  | cons e0 rest ih =>
      intro m hwf hcur hndl hcov
      obtain ⟨k0, si⟩ := e0
      have hget0 : NodeMap.get m.Pmap k0 = some si := hcur (k0, si) (by simp)
      simp only [List.map_cons, List.nodup_cons] at hndl
      obtain ⟨hk0r, hndr⟩ := hndl
      have hcur2 : ∀ e ∈ rest, NodeMap.get m.Pmap e.1 = some e.2 :=
        fun e he => hcur e (List.mem_cons_of_mem _ he)
      have hcovr : ∀ e ∈ m.Pmap, e.1 ∉ rest.map Prod.fst →
          e.1 = k0 ∨ coveredEntry e := by
        intro e he hnr
        by_cases hk : e.1 = k0
        · exact Or.inl hk
        · refine Or.inr (hcov e he ?_)
          simp only [List.map_cons, List.mem_cons]
          rintro (hc | hc)
          · exact hk hc
          · exact hnr hc
      unfold smapX.fillICLoop
      by_cases hne : si.flags.IsSet SnodeNonElectable = true
      · rw [if_pos hne]
        refine ih m hwf hcur2 hndr ?_
        intro e he hnr
        rcases hcovr e he hnr with hk | hc
        · rw [NodeMap.mem_eq_of_get m.Pmap hwf.1 k0 si hget0 e he hk]
          exact Or.inl (by rw [← BitFlags.IsSet_SnodeNonElectable]; exact hne)
        · exact hc
      · rw [if_neg hne]
        dsimp only
        by_cases hic : si.flags.ic = true
        · have haddic : m.addIC si = m := by
            unfold smapX.addIC
            rw [if_pos (show m.IsIC si = true from by
              simp [smapX.IsIC, BitFlags.IsSet_SnodeIC, hic])]
          rw [haddic]
          have hcovr2 : ∀ e ∈ m.Pmap, e.1 ∉ rest.map Prod.fst → coveredEntry e := by
            intro e he hnr
            rcases hcovr e he hnr with hk | hc
            · rw [NodeMap.mem_eq_of_get m.Pmap hwf.1 k0 si hget0 e he hk]
              exact Or.inr hic
            · exact hc
          split
          · next hge =>
              exact ⟨rfl, rfl, hwf, fun k v h _ => h, Or.inl hge⟩
          · exact ih m hwf hcur2 hndr hcovr2
        · have hstep := smapX.addIC_step m k0 si hwf hget0 (by
            cases hx : si.flags.ic
            · rfl
            · exact absurd hx hic)
          rw [hstep]
          have hmemk : k0 ∈ NodeMap.keys m.Pmap :=
            NodeMap.get_some_mem_keys m.Pmap k0 si hget0
          have hsid : si.id = k0 := (hwf.2.1 (k0, si)
            (NodeMap.get_some_mem m.Pmap k0 si hget0)).1
          have hsrole : si.role = Role.proxy := (hwf.2.1 (k0, si)
            (NodeMap.get_some_mem m.Pmap k0 si hget0)).2
          set si2 : Snode := { si with flags := si.flags.Set SnodeIC } with hsi2
          have hsi2ic : si2.flags.ic = true := BitFlags.set_ic_ic si.flags
          set m2 : smapX :=
            { m with Pmap := m.Pmap.set k0 si2, Version := m.Version + 1 } with hm2
          have hkeys2 : NodeMap.keys m2.Pmap = NodeMap.keys m.Pmap :=
            NodeMap.keys_set_of_mem m.Pmap k0 si2 hmemk
          have hwf2 : m2.PmapWF := by
            refine ⟨by rw [hkeys2]; exact hwf.1, ?_, ?_⟩
            · intro e he
              rcases (NodeMap.mem_set_nodup m.Pmap k0 si2 hwf.1 e).1 he with ⟨he2, _⟩ | he2
              · exact hwf.2.1 e he2
              · rw [he2]
                exact ⟨by rw [show si2.id = si.id from rfl, hsid],
                  by rw [show si2.role = si.role from rfl]; exact hsrole⟩
            · intro k hk
              rw [hkeys2] at hk
              exact hwf.2.2 k hk
          have hcur3 : ∀ e ∈ rest, NodeMap.get m2.Pmap e.1 = some e.2 := by
            intro e he
            show NodeMap.get (m.Pmap.set k0 si2) e.1 = some e.2
            rw [NodeMap.get_set]
            rw [if_neg (show ¬ k0 = e.1 from fun hc => hk0r (by
              rw [hc]; exact List.mem_map_of_mem Prod.fst he))]
            exact hcur2 e he
          have hcov3 : ∀ e ∈ m2.Pmap, e.1 ∉ rest.map Prod.fst → coveredEntry e := by
            intro e he hnr
            rcases (NodeMap.mem_set_nodup m.Pmap k0 si2 hwf.1 e).1 he with ⟨he2, hne2⟩ | he2
            · rcases hcovr e he2 hnr with hk | hc
              · exact absurd hk hne2
              · exact hc
            · rw [he2]
              exact Or.inr hsi2ic
          have hpres2 : ∀ k v, NodeMap.get m.Pmap k = some v → v.flags.ic = true →
              NodeMap.get m2.Pmap k = some v := by
            intro k v hv hvic
            show NodeMap.get (m.Pmap.set k0 si2) k = some v
            rw [NodeMap.get_set]
            rw [if_neg (show ¬ k0 = k from by
              intro hc
              subst hc
              rw [hget0] at hv
              injection hv with hv
              rw [← hv] at hvic
              rw [hvic] at hic
              exact hic rfl)]
            exact hv
          split
          · next hge =>
              exact ⟨rfl, rfl, hwf2, hpres2, Or.inl hge⟩
          · obtain ⟨ih1, ih2, ih3, ih4, ih5⟩ := ih m2 hwf2 hcur3 hndr hcov3
            refine ⟨ih1, ih2, ih3, ?_, ih5⟩
            intro k v hv hvic
            exact ih4 k v (hpres2 k v hv hvic) hvic

theorem smapX.fillIC_preserves (m : smapX) (hwf : m.PmapWF) :
    (m._fillIC).Tmap = m.Tmap ∧ (m._fillIC).Primary = m.Primary ∧
    (m._fillIC).PmapWF ∧
    (∀ k v, NodeMap.get m.Pmap k = some v → v.flags.ic = true →
      NodeMap.get (m._fillIC).Pmap k = some v) ∧
    (DefaultICSize ≤ (m._fillIC).ICCount ∨
      ∀ e ∈ (m._fillIC).Pmap, coveredEntry e) := by
  unfold smapX._fillIC
  by_cases hge : m.ICCount ≥ DefaultICSize
  · rw [if_pos hge]
    exact ⟨rfl, rfl, hwf, fun k v h _ => h, Or.inl hge⟩
  · rw [if_neg hge]
    exact smapX.fillICLoop_invar m.Pmap m hwf
      (NodeMap.get_self_of_nodup m.Pmap hwf.1) hwf.1
      (fun e he hn => absurd (List.mem_map_of_mem Prod.fst he) hn)

theorem BitFlags.clear_ic (f : BitFlags) : (f.Clear SnodeIC).ic = false := by
  cases f
  simp [BitFlags.Clear, SnodeIC]

theorem smapX.clearIC_step (m : smapX) (k0 : String) (si : Snode)
    (hwf : m.PmapWF) (hget : NodeMap.get m.Pmap k0 = some si) :
    m.clearNodeFlags k0 SnodeIC =
      { m with Pmap := m.Pmap.set k0 { si with flags := si.flags.Clear SnodeIC },
               Version := m.Version + 1 } := by
  obtain ⟨hnd, hco, hdisj⟩ := hwf
  have hmem := NodeMap.get_some_mem m.Pmap k0 si hget
  obtain ⟨hsid, hsrole⟩ := hco (k0, si) hmem
  dsimp only at hsid hsrole
  have hkeys : k0 ∈ NodeMap.keys m.Pmap := NodeMap.get_some_mem_keys m.Pmap k0 si hget
  unfold smapX.clearNodeFlags
  have hgn : m.GetNode k0 = some si := by
    unfold smapX.GetNode smapX.GetTarget smapX.GetProxy
    rw [hdisj k0 hkeys]
    exact hget
  rw [hgn]
  unfold smapX._applyFlags
  dsimp only
  rw [if_neg (show ¬ Snode.IsTarget { si with flags := si.flags.Clear SnodeIC } = true from by
    simp [Snode.IsTarget, hsrole])]
  rw [show ({ si with flags := si.flags.Clear SnodeIC } : Snode).id = si.id from rfl, hsid]

theorem smapX.evictICLoop_found (l : List (String × Snode)) :
    ∀ m : smapX, m.PmapWF →
      (∀ e ∈ l, NodeMap.get m.Pmap e.1 = some e.2) →
      (∃ e ∈ l, e.1 ≠ m.primaryID ∧ e.2.flags.ic = true) →
      (m.evictICLoop l).ICCount + 1 = m.ICCount ∧
      (m.evictICLoop l).Tmap = m.Tmap ∧
      (m.evictICLoop l).Primary = m.Primary ∧
      (m.evictICLoop l).PmapWF ∧
      (∀ v, NodeMap.get m.Pmap m.primaryID = some v →
        NodeMap.get (m.evictICLoop l).Pmap m.primaryID = some v) := by
  induction l with
  | nil =>
      intro m _ _ hex
      simp at hex
  | cons e0 rest ih =>
      intro m hwf hcur hex
      obtain ⟨k0, si⟩ := e0
      have hget0 : NodeMap.get m.Pmap k0 = some si := hcur (k0, si) (by simp)
      unfold smapX.evictICLoop
      by_cases hskip : k0 = m.primaryID ∨ ¬ m.IsIC si = true
      · rw [if_pos hskip]
        refine ih m hwf (fun e he => hcur e (List.mem_cons_of_mem _ he)) ?_
        obtain ⟨e, he, hne, heic⟩ := hex
        rcases List.mem_cons.1 he with he | he
        · exfalso
          rcases hskip with hs | hs
          · exact hne (by rw [he]; exact hs)
          · apply hs
            rw [he] at heic
            simp [smapX.IsIC, BitFlags.IsSet_SnodeIC]
            exact heic
        · exact ⟨e, he, hne, heic⟩
      · rw [if_neg hskip]
        push_neg at hskip
        obtain ⟨hk0, hicsi⟩ := hskip
        have hsic : si.flags.ic = true := by
          simpa [smapX.IsIC, BitFlags.IsSet_SnodeIC] using hicsi
        have hstep := smapX.clearIC_step m k0 si hwf hget0
        rw [hstep]
        set si2 : Snode := { si with flags := si.flags.Clear SnodeIC } with hsi2
        have hmemk : k0 ∈ NodeMap.keys m.Pmap :=
          NodeMap.get_some_mem_keys m.Pmap k0 si hget0
        have hsid : si.id = k0 := (hwf.2.1 (k0, si)
          (NodeMap.get_some_mem m.Pmap k0 si hget0)).1
        refine ⟨?_, rfl, rfl, ?_, ?_⟩
        · show NodeMap.countIC (m.Pmap.set k0 si2) + 1 = NodeMap.countIC m.Pmap
          have := NodeMap.countIC_set_exact m.Pmap k0 si2 si hwf.1 hget0
          rw [hsic, BitFlags.clear_ic si.flags] at this
          simp at this
          omega
        · refine ⟨?_, ?_, ?_⟩
          · show (NodeMap.keys (m.Pmap.set k0 si2)).Nodup
            rw [NodeMap.keys_set_of_mem m.Pmap k0 si2 hmemk]
            exact hwf.1
          · intro e he
            rcases (NodeMap.mem_set_nodup m.Pmap k0 si2 hwf.1 e).1 he with ⟨he2, _⟩ | he2
            · exact hwf.2.1 e he2
            · rw [he2]
              exact ⟨by rw [show si2.id = si.id from rfl, hsid],
                (hwf.2.1 (k0, si) (NodeMap.get_some_mem m.Pmap k0 si hget0)).2⟩
          · intro k hk
            rw [NodeMap.keys_set_of_mem m.Pmap k0 si2 hmemk] at hk
            exact hwf.2.2 k hk
        · intro v hv
          show NodeMap.get (m.Pmap.set k0 si2) m.primaryID = some v
          rw [NodeMap.get_set, if_neg hk0]
          exact hv

theorem smapX.fill_evict_stable (m2 : smapX) (p2 : Snode)
    (hp : m2.Primary = some p2)
    (hget : NodeMap.get m2.Pmap p2.id = some p2)
    (hic : p2.flags.ic = true)
    (hwf : m2.PmapWF)
    (hcnt : m2.ICCount ≤ DefaultICSize + 1) :
    ((m2._fillIC).evictIC).Stable := by
  obtain ⟨f1, f2, f3, f4, f5⟩ := smapX.fillIC_preserves m2 hwf
  have hget3 : NodeMap.get (m2._fillIC).Pmap p2.id = some p2 := f4 p2.id p2 hget hic
  have htm3 : NodeMap.get (m2._fillIC).Tmap p2.id = none := by
    rw [f1]
    exact hwf.2.2 p2.id (NodeMap.get_some_mem_keys m2.Pmap p2.id p2 hget)
  by_cases hble : (m2._fillIC).ICCount ≤ DefaultICSize
  · rw [smapX.evictIC_id _ hble]
    exact ⟨p2, by rw [f2]; exact hp, hget3, htm3, hic, hble, f5⟩
  · have hcnt3 : (m2._fillIC).ICCount = DefaultICSize + 1 := by
      by_cases hm2le : m2.ICCount ≤ DefaultICSize
      · exact absurd (smapX.fillIC_bound m2 hm2le) hble
      · have hfid : m2._fillIC = m2 := smapX.fillIC_id m2 (Or.inl (by omega))
        rw [hfid]
        omega
    unfold smapX.evictIC
    rw [if_neg (by omega)]
    have hcur3 := NodeMap.get_self_of_nodup (m2._fillIC).Pmap f3.1
    have hpid3 : (m2._fillIC).primaryID = p2.id := by
      unfold smapX.primaryID
      rw [f2, hp]
    have hex : ∃ e ∈ (m2._fillIC).Pmap,
        e.1 ≠ (m2._fillIC).primaryID ∧ e.2.flags.ic = true := by
      obtain ⟨e, he, heic, hne⟩ := NodeMap.exists_nonprimary_ic (m2._fillIC).Pmap
        ((m2._fillIC).primaryID) f3.1 (by
          show 2 ≤ NodeMap.countIC (m2._fillIC).Pmap
          have : (m2._fillIC).ICCount = NodeMap.countIC (m2._fillIC).Pmap := rfl
          rw [← this, hcnt3]
          unfold DefaultICSize
          omega)
      exact ⟨e, he, hne, heic⟩
    obtain ⟨g1, g2, g3, g4, g5⟩ :=
      smapX.evictICLoop_found (m2._fillIC).Pmap (m2._fillIC) f3 hcur3 hex
    refine ⟨p2, ?_, ?_, ?_, hic, ?_, ?_⟩
    · rw [g3, f2]
      exact hp
    · have := g5 p2 (by rw [hpid3]; exact hget3)
      rw [hpid3] at this
      exact this
    · rw [g2, f1]
      exact hwf.2.2 p2.id (NodeMap.get_some_mem_keys m2.Pmap p2.id p2 hget)
    · omega
    · exact Or.inl (by omega)

theorem smapX.staffIC_stabilizes (m : smapX) (p : Snode)
    (hp : m.Primary = some p) (hpm : NodeMap.get m.Pmap p.id = some p)
    (hwf : m.PmapWF) (hcnt : m.ICCount ≤ DefaultICSize) :
    (m.staffIC).Stable := by
  have hmemk : p.id ∈ NodeMap.keys m.Pmap :=
    NodeMap.get_some_mem_keys m.Pmap p.id p hpm
  have hpid : m.primaryID = p.id := by
    unfold smapX.primaryID
    rw [hp]
  unfold smapX.staffIC
  rw [hp]
  dsimp only
  rw [hpid]
  by_cases hic : p.flags.ic = true
  · have haddic : m.addIC p = m := by
      unfold smapX.addIC
      rw [if_pos (show m.IsIC p = true from by
        simp [smapX.IsIC, BitFlags.IsSet_SnodeIC, hic])]
    rw [haddic]
    have hgn : m.GetNode p.id = some p := by
      unfold smapX.GetNode smapX.GetTarget smapX.GetProxy
      rw [hwf.2.2 p.id hmemk]
      exact hpm
    rw [hgn, smapX.eta_primary m (some p) hp]
    exact smapX.fill_evict_stable m p hp hpm hic hwf (by omega)
  · have hstep := smapX.addIC_step m p.id p hwf hpm (by
      cases hx : p.flags.ic
      · rfl
      · exact absurd hx hic)
    rw [hstep]
    set p2 : Snode := { p with flags := p.flags.Set SnodeIC } with hp2
    set m1 : smapX :=
      { m with Pmap := m.Pmap.set p.id p2, Version := m.Version + 1 } with hm1
    have hget1 : NodeMap.get m1.Pmap p.id = some p2 := by
      show NodeMap.get (m.Pmap.set p.id p2) p.id = some p2
      rw [NodeMap.get_set, if_pos rfl]
    have hkeys1 : NodeMap.keys m1.Pmap = NodeMap.keys m.Pmap :=
      NodeMap.keys_set_of_mem m.Pmap p.id p2 hmemk
    have hwf1 : m1.PmapWF := by
      refine ⟨by rw [hkeys1]; exact hwf.1, ?_, ?_⟩
      · intro e he
        rcases (NodeMap.mem_set_nodup m.Pmap p.id p2 hwf.1 e).1 he with ⟨he2, _⟩ | he2
        · exact hwf.2.1 e he2
        · rw [he2]
          exact ⟨by rw [show p2.id = p.id from rfl],
            (hwf.2.1 (p.id, p) (NodeMap.get_some_mem m.Pmap p.id p hpm)).2⟩
      · intro k hk
        rw [hkeys1] at hk
        exact hwf.2.2 k hk
    have hgn1 : m1.GetNode p.id = some p2 := by
      unfold smapX.GetNode smapX.GetTarget smapX.GetProxy
      rw [show m1.Tmap = m.Tmap from rfl, hwf.2.2 p.id hmemk]
      exact hget1
    rw [hgn1]
    have hcnt1 : m1.ICCount ≤ DefaultICSize + 1 := by
      have := NodeMap.countIC_set_le m.Pmap p.id p2
      show NodeMap.countIC (m.Pmap.set p.id p2) ≤ DefaultICSize + 1
      have hc : NodeMap.countIC m.Pmap ≤ DefaultICSize := hcnt
      omega
    exact smapX.fill_evict_stable { m1 with Primary := some p2 } p2 rfl hget1
      (BitFlags.set_ic_ic p.flags) hwf1 hcnt1

/-- C7 (amended): `staffIC` is idempotent on well-formed snapshots whose IC
membership is within the bound — the primary present as its own proxy-map
entry, proxy entries keyed by their ids with proxy role and key-disjoint from
the target map, no duplicate keys, and at most `DefaultICSize` IC members.
(On a snapshot whose IC membership exceeds the bound by more than one, each
call evicts one more member, so a second call is not a no-op.) -/
theorem c7_staffIC_idempotent (m : smapX) (p : Snode)
    (hp : m.Primary = some p) (hpm : NodeMap.get m.Pmap p.id = some p)
    (hwf : m.PmapWF) (hcnt : m.ICCount ≤ DefaultICSize) :
    (m.staffIC).staffIC = m.staffIC :=
  smapX.staffIC_stable m.staffIC (smapX.staffIC_stabilizes m p hp hpm hwf hcnt)

/-- C7 counterexample: on the snapshot with five IC proxies the first
`staffIC` call evicts one member (leaving four) and the second evicts
another, so the two results differ — `staffIC` is not unconditionally
idempotent. -/
theorem c7_counterexample : (smap5IC.staffIC).staffIC ≠ smap5IC.staffIC := by
  decide

/-- C7 witness: the amended idempotence theorem applied to a concrete
well-formed snapshot. -/
theorem c7_witness : (smap3OK.staffIC).staffIC = smap3OK.staffIC :=
  c7_staffIC_idempotent smap3OK nodeP1 rfl (by decide)
    (by unfold smapX.PmapWF; decide) (by decide)

/-- Concrete two-node heap for the C6 witness: references 0 and 1 are
allocated. -/
def heapC6 : Heap := ⟨fun r => if r = 0 then nodeTA else nodePA, 2⟩

/-- Concrete reference-level snapshot for the C6 witness. -/
def smapRC6 : smapR := ⟨[("t1", 0)], [("pa", 1)], some 1, 7, "ua", "", "7"⟩

/-- C6 witness: the independence theorem applied to a concrete snapshot —
overwriting the clone's copy of the target node leaves the original
reference's node intact, and the clone carries the same cached version
string. -/
theorem c6_witness :
    ((smapRC6.clone heapC6).2.applyWrites [(2, nodeP2)]).read 0 = heapC6.read 0 ∧
    (smapRC6.clone heapC6).1.vstr = smapRC6.vstr := by
  have h := c6_clone_structural_independence smapRC6 heapC6 (by decide)
  exact ⟨h.2.2.2 [(2, nodeP2)] (by decide) 0 (by decide), h.1⟩
